import Mathlib

/-!
Verification development for the MCP tool-call gateway backend
(`mcp_server_manager.py` and the filesystem / terminal / database MCP
servers under `app/services/mcp_servers/`).

Strings are modelled as `List Char` (written `Str` below); Python string
literals are written as Lean string literals converted with `.toList`.
`str.upper()` is modelled for the ASCII range (all keywords involved are
ASCII), and `str.strip()` strips the ASCII whitespace characters.
-/

abbrev Str := List Char

/-- Python `in` on strings: contiguous substring test. -/
def containsSub (needle hay : Str) : Bool :=
  decide (needle <:+: hay)

/-- Python `str.upper()` (ASCII fragment). -/
def pyUpper (s : Str) : Str :=
  s.map Char.toUpper

/-- Characters stripped by Python `str.strip()` (ASCII whitespace). -/
def isPySpace (c : Char) : Bool :=
  c = ' ' ∨ c = '\t' ∨ c = '\n' ∨ c = '\r' ∨ c = '\x0b' ∨ c = '\x0c'

/-- Python `str.strip()`: drop leading and trailing whitespace. -/
def pyStrip (s : Str) : Str :=
  ((s.dropWhile isPySpace).reverse.dropWhile isPySpace).reverse

/-- Python exceptions that the ported code raises. -/
inductive PyErr where
  | valueError (msg : String)
  | fileNotFoundError (msg : String)
  | fileExistsError (msg : String)
  | runtimeError (msg : String)
  | osError (msg : String)
  deriving Repr, DecidableEq

instance instDecEqExcept {ε α : Type} [DecidableEq ε] [DecidableEq α] :
    DecidableEq (Except ε α) := fun a b =>
  match a, b with
  | .ok x, .ok y =>
    if h : x = y then isTrue (by rw [h])
    else isFalse (by intro hh; cases hh; exact h rfl)
  | .error x, .error y =>
    if h : x = y then isTrue (by rw [h])
    else isFalse (by intro hh; cases hh; exact h rfl)
  | .ok _, .error _ => isFalse (by intro hh; cases hh)
  | .error _, .ok _ => isFalse (by intro hh; cases hh)

/-!
## Database MCP server (`database_server.py`)

`DatabaseMCPServer._validate_query` / `_validate_statement` /
`execute_query` / `execute_statement` / `_add_to_history`.
The sqlite engine itself is abstract; `engine` in `DbOut` records the
statements handed to `cursor.execute`, so "reaches the database engine"
is "appears in `engine`".
-/

/-- Default `allowed_operations` of `DatabaseMCPServer.__init__`. -/
def defaultAllowedOperations : List Str :=
  ["SELECT".toList, "INSERT".toList, "UPDATE".toList, "DELETE".toList]

/-- `dangerous_patterns` of `_validate_query`. -/
def queryDangerousPatterns : List Str :=
  ["DROP TABLE".toList, "DROP DATABASE".toList, "DELETE FROM".toList,
   "TRUNCATE".toList, "ALTER TABLE".toList, "CREATE INDEX".toList,
   "DROP INDEX".toList]

/-- `dangerous_patterns` of `_validate_statement` (no `DELETE FROM`). -/
def statementDangerousPatterns : List Str :=
  ["DROP TABLE".toList, "DROP DATABASE".toList,
   "TRUNCATE".toList, "ALTER TABLE".toList, "CREATE INDEX".toList,
   "DROP INDEX".toList]

/-- One entry of the bounded query history (metadata only). -/
structure DbHistoryItem where
  text : Str
  database : Str
  isQuery : Bool
  deriving Repr, DecidableEq

/-- State of `DatabaseMCPServer` relevant to the claims. -/
structure DbServer where
  allowed_operations : List Str
  connections : List Str
  query_history : List DbHistoryItem
  max_history : Nat
  deriving Repr

/-- The shared allowlist step of both validators: find the first allowed
operation that is a string prefix of the uppercased, stripped SQL; the
Python `if not operation` also fires on an empty string operation. -/
def findOperation (allowed : List Str) (u : Str) : Option Str :=
  allowed.find? (fun op => op.isPrefixOf u)

/-- `DatabaseMCPServer._validate_query`. -/
def validate_query (allowed : List Str) (query : Str) : Except PyErr Unit :=
  let query_upper := pyStrip (pyUpper query)
  match findOperation allowed query_upper with
  | none => .error (.valueError "Operation not allowed")
  | some op =>
    if op = [] then .error (.valueError "Operation not allowed")
    else if queryDangerousPatterns.any (fun p => containsSub p query_upper) then
      .error (.valueError "Dangerous SQL pattern detected")
    else .ok ()

/-- `DatabaseMCPServer._validate_statement`. -/
def validate_statement (allowed : List Str) (statement : Str) : Except PyErr Unit :=
  let statement_upper := pyStrip (pyUpper statement)
  match findOperation allowed statement_upper with
  | none => .error (.valueError "Operation not allowed")
  | some op =>
    if op = [] then .error (.valueError "Operation not allowed")
    else if statementDangerousPatterns.any (fun p => containsSub p statement_upper) then
      .error (.valueError "Dangerous SQL pattern detected")
    else .ok ()

/-- `DatabaseMCPServer._add_to_history`: append, then trim to the last
`max_history` entries when over capacity. -/
def dbAddToHistory (srv : DbServer) (item : DbHistoryItem) : DbServer :=
  let h := srv.query_history ++ [item]
  { srv with query_history :=
      if srv.max_history < h.length then h.drop (h.length - srv.max_history) else h }

/-- Result of a database call: outcome, new server state, and the list of
statements that were handed to the sqlite engine. -/
structure DbOut where
  res : Except PyErr Unit
  st : DbServer
  engine : List Str
  deriving Repr

/-- `DatabaseMCPServer.execute_query` (`database/query`). Row fetching is
abstract; what matters is whether the statement reaches the engine. -/
def execute_query (srv : DbServer) (query database : Str) : DbOut :=
  if query = [] then
    ⟨.error (.valueError "Query parameter is required"), srv, []⟩
  else
    match validate_query srv.allowed_operations query with
    | .error e => ⟨.error e, srv, []⟩
    | .ok () =>
      if database ∈ srv.connections then
        ⟨.ok (), dbAddToHistory srv ⟨query, database, true⟩, [query]⟩
      else
        ⟨.error (.valueError "Database not connected"), srv, []⟩

/-- `DatabaseMCPServer.execute_statement` (`database/execute`). -/
def execute_statement (srv : DbServer) (statement database : Str) : DbOut :=
  if statement = [] then
    ⟨.error (.valueError "Statement parameter is required"), srv, []⟩
  else
    match validate_statement srv.allowed_operations statement with
    | .error e => ⟨.error e, srv, []⟩
    | .ok () =>
      if database ∈ srv.connections then
        ⟨.ok (), dbAddToHistory srv ⟨statement, database, false⟩, [statement]⟩
      else
        ⟨.error (.valueError "Database not connected"), srv, []⟩

/-- A database server as `__init__` + `initialize` build it with default
configuration: default allowlist, the `default` connection open. -/
def defaultDbServer : DbServer :=
  ⟨defaultAllowedOperations, ["default".toList], [], 100⟩

/-- Modelled from the spec: "the leading verb" of a SQL statement, read as
the first whitespace-delimited token of the uppercased, stripped text.
Used to compare the spec's wording with the source's prefix test. -/
def leadingVerb (query : Str) : Str :=
  (pyStrip (pyUpper query)).takeWhile (fun c => ¬ isPySpace c)

/-!
## Terminal MCP server (`terminal_server.py`)

`shlex.split` (POSIX mode, `whitespace_split=True`) is modelled as a
character-at-a-time state machine; `none` models the `ValueError` raised
for an unclosed quotation or a trailing escape character.
-/

/-- Tokenizer mode: outside quotes, inside single/double quotes, or
pending escape (outside / inside double quotes). -/
inductive ShMode where
  | norm | quoteS | quoteD | escNorm | escQuoteD
  deriving Repr, DecidableEq

/-- Tokenizer state: mode, the token under construction (`none` while
between tokens), and the completed tokens. -/
structure ShState where
  mode : ShMode
  cur : Option Str
  outs : List Str
  deriving Repr, DecidableEq

/-- `shlex.whitespace`. -/
def shWs (c : Char) : Bool :=
  c = ' ' ∨ c = '\t' ∨ c = '\r' ∨ c = '\n'

/-- One character of `shlex` tokenization (POSIX rules: quotes group,
backslash escapes; inside double quotes backslash only escapes `"` and
backslash itself, otherwise both characters are kept). -/
def shStep (s : ShState) (c : Char) : ShState :=
  match s.mode with
  | .norm =>
    if shWs c then
      match s.cur with
      | none => s
      | some t => ⟨.norm, none, s.outs ++ [t]⟩
    else if c = '\'' then ⟨.quoteS, some (s.cur.getD []), s.outs⟩
    else if c = '"' then ⟨.quoteD, some (s.cur.getD []), s.outs⟩
    else if c = '\\' then ⟨.escNorm, some (s.cur.getD []), s.outs⟩
    else ⟨.norm, some (s.cur.getD [] ++ [c]), s.outs⟩
  | .quoteS =>
    if c = '\'' then ⟨.norm, s.cur, s.outs⟩
    else ⟨.quoteS, some (s.cur.getD [] ++ [c]), s.outs⟩
  | .quoteD =>
    if c = '"' then ⟨.norm, s.cur, s.outs⟩
    else if c = '\\' then ⟨.escQuoteD, s.cur, s.outs⟩
    else ⟨.quoteD, some (s.cur.getD [] ++ [c]), s.outs⟩
  | .escNorm => ⟨.norm, some (s.cur.getD [] ++ [c]), s.outs⟩
  | .escQuoteD =>
    if c = '"' ∨ c = '\\' then ⟨.quoteD, some (s.cur.getD [] ++ [c]), s.outs⟩
    else ⟨.quoteD, some (s.cur.getD [] ++ ['\\', c]), s.outs⟩

/-- Run the tokenizer over a string. -/
def shRun (s : ShState) (input : Str) : ShState :=
  input.foldl shStep s

/-- The initial tokenizer state. -/
def shInit : ShState := ⟨.norm, none, []⟩

/-- `shlex.split(input)`: `none` models the `ValueError` raised at EOF in
a quote (`No closing quotation`) or after an escape character
(`No escaped character`). -/
def shlexSplit (input : Str) : Option (List Str) :=
  let f := shRun shInit input
  match f.mode with
  | .norm => some (f.outs ++ f.cur.toList)
  | _ => none

/-- Python `' '.join(tokens)`. -/
def joinSp : List Str → Str
  | [] => []
  | [t] => t
  | t :: ts => t ++ ' ' :: joinSp ts

/-- The flattened output of a tokenizer state: completed tokens plus the
pending token, joined by single spaces. This is what
`' '.join(shlex.split(input))` produces once the input is consumed. -/
def shFlat (s : ShState) : Str :=
  joinSp (s.outs ++ s.cur.toList)

/-- Default `allowed_commands` of `TerminalMCPServer.__init__`. -/
def defaultAllowedCommands : List Str :=
  (["ls", "cat", "grep", "find", "pwd", "echo", "head", "tail",
    "wc", "sort", "uniq", "cut", "awk", "sed", "tr", "diff",
    "file", "stat", "du", "df", "ps", "top", "free", "uptime"]).map String.toList

/-- `dangerous_patterns` of `TerminalMCPServer._validate_command`. -/
def terminalDangerousPatterns : List Str :=
  (["rm -rf", "dd if=", "> /dev/", "| bash", "| sh",
    "sudo", "su", "chmod 777", "chown root"]).map String.toList

/-- `TerminalMCPServer._validate_command`: tokenize, check the base token
against the allowlist, then scan `' '.join(cmd_parts)` for dangerous
patterns. -/
def validate_command (allowed : List Str) (command : Str) : Except PyErr Unit :=
  match shlexSplit command with
  | none => .error (.valueError "No closing quotation")
  | some cmd_parts =>
    match cmd_parts with
    | [] => .error (.valueError "Empty command")
    | base_command :: _ =>
      if base_command ∈ allowed then
        let command_str := joinSp cmd_parts
        if terminalDangerousPatterns.any (fun p => containsSub p command_str) then
          .error (.valueError "Dangerous command pattern detected")
        else .ok ()
      else .error (.valueError "Command not allowed")

/-- A process id `f"proc_{timestamp}_{table size}"`, modelled as the pair
(timestamp, table size), which the format renders injectively. -/
abbrev ProcId := Nat × Nat

/-- One entry of the bounded command history (`_add_to_history` keeps
command, exit code, success, timestamp, working directory). -/
structure HistoryItem where
  command : Str
  exit_code : Int
  success : Bool
  working_directory : Str
  deriving Repr, DecidableEq

/-- State of `TerminalMCPServer` relevant to the claims:
`running_processes` maps a process id to the child pid. -/
structure TerminalServer where
  working_directory : Str
  allowed_commands : List Str
  running_processes : List (ProcId × Nat)
  command_history : List HistoryItem
  max_history : Nat
  deriving Repr

/-- The operating system as the server observes it: a fresh-pid counter
and the set of live child processes. -/
structure Os where
  nextPid : Nat
  live : List Nat
  deriving Repr, DecidableEq

/-- Python dict assignment `running_processes[id] = pid` (overwrite in
place, append if absent). -/
def regSet (tbl : List (ProcId × Nat)) (id : ProcId) (pid : Nat) : List (ProcId × Nat) :=
  if (tbl.lookup id).isSome then
    tbl.map (fun e => if e.1 = id then (id, pid) else e)
  else tbl ++ [(id, pid)]

/-- Python `del running_processes[id]`. -/
def regDel (tbl : List (ProcId × Nat)) (id : ProcId) : List (ProcId × Nat) :=
  tbl.filter (fun e => ¬ e.1 = id)

/-- `TerminalMCPServer._add_to_history`. -/
def terminalAddToHistory (st : TerminalServer) (item : HistoryItem) : TerminalServer :=
  let h := st.command_history ++ [item]
  { st with command_history :=
      if st.max_history < h.length then h.drop (h.length - st.max_history) else h }

/-- How the spawned child behaves: completes within the timeout, runs past
the timeout, or fails to spawn. -/
inductive ExecOutcome where
  | completes (exit_code : Int) (stdout stderr : Str)
  | timesOut
  | spawnFails (msg : String)
  deriving Repr

/-- The result dictionary of `terminal/execute` (the keys the claims
mention; the normal-completion dictionary has no `timed_out` key, which is
modelled as `timed_out = false`). -/
structure ExecRes where
  process_id : ProcId
  command : Str
  exit_code : Int
  stdout : Str
  stderr : Str
  success : Bool
  timed_out : Bool
  deriving Repr, DecidableEq

/-- Everything observable about one `execute_command` call. -/
structure ExecOut where
  res : Except PyErr ExecRes
  st : TerminalServer
  os : Os
  spawned : Bool
  terminatedChild : Bool
  deriving Repr

/-- `TerminalMCPServer.execute_command`, with the timeout race resolved by
the `outcome` parameter. Note the source's control flow on timeout: the
inner `finally` deletes the registry entry first, and only then does the
`except asyncio.TimeoutError` handler run its
`if process_id in self.running_processes` block. -/
def execute_command (st : TerminalServer) (os : Os) (command : Str)
    (timeout : Nat) (now : Nat) (outcome : ExecOutcome) : ExecOut :=
  if command = [] then
    ⟨.error (.valueError "Command parameter is required"), st, os, false, false⟩
  else
    match validate_command st.allowed_commands command with
    | .error e => ⟨.error e, st, os, false, false⟩
    | .ok () =>
      let process_id : ProcId := (now, st.running_processes.length)
      match outcome with
      | .spawnFails msg => ⟨.error (.valueError msg), st, os, false, false⟩
      | .completes exit_code out err =>
        let pid := os.nextPid
        let os1 : Os := ⟨os.nextPid + 1, os.live ++ [pid]⟩
        let st1 := { st with running_processes := regSet st.running_processes process_id pid }
        let os2 : Os := ⟨os1.nextPid, os1.live.filter (fun q => ¬ q = pid)⟩
        let result : ExecRes :=
          ⟨process_id, command, exit_code, out, err, exit_code = 0, false⟩
        let st2 := terminalAddToHistory st1
          ⟨command, exit_code, exit_code = 0, st.working_directory⟩
        let st3 := { st2 with running_processes := regDel st2.running_processes process_id }
        ⟨.ok result, st3, os2, true, false⟩
      | .timesOut =>
        let pid := os.nextPid
        let os1 : Os := ⟨os.nextPid + 1, os.live ++ [pid]⟩
        let st1 := { st with running_processes := regSet st.running_processes process_id pid }
        let st2 := { st1 with running_processes := regDel st1.running_processes process_id }
        let timeoutRes : ExecRes :=
          ⟨process_id, command, -1, [],
            "Command timed out after ".toList ++ Nat.toDigits 10 timeout ++ " seconds".toList,
            false, true⟩
        if (st2.running_processes.lookup process_id).isSome then
          let os2 : Os := ⟨os1.nextPid, os1.live.filter (fun q => ¬ q = pid)⟩
          let st3 := { st2 with running_processes := regDel st2.running_processes process_id }
          ⟨.ok timeoutRes, st3, os2, true, true⟩
        else
          ⟨.ok timeoutRes, st2, os1, true, false⟩

/-- Everything observable about one `kill_process` call. -/
structure KillOut where
  res : Except PyErr Unit
  st : TerminalServer
  os : Os
  deriving Repr

/-- `TerminalMCPServer.kill_process`: `ValueError` for an unknown id;
otherwise terminate (escalating to kill after the grace period), so the
child is dead afterwards, and drop the registry entry. -/
def kill_process (st : TerminalServer) (os : Os) (process_id : ProcId) : KillOut :=
  match st.running_processes.lookup process_id with
  | none => ⟨.error (.valueError "Process not found"), st, os⟩
  | some pid =>
    ⟨.ok (),
     { st with running_processes := regDel st.running_processes process_id },
     ⟨os.nextPid, os.live.filter (fun q => ¬ q = pid)⟩⟩

/-!
## Manager / router (`mcp_server_manager.py`)

Whether constructing-and-initializing a given server succeeds depends on
the environment (filesystem permissions, database files, ...), modelled
by `env : String → Bool`; a name outside the four known server types
always fails (`_initialize_server`'s final `else: raise ValueError`).
-/

/-- One entry of the manager's `server_configs` dict (name plus its
`enabled` flag; the type-specific settings are irrelevant here). -/
structure ServerCfg where
  name : String
  enabled : Bool
  deriving Repr, DecidableEq

/-- The four server types `_initialize_server` knows how to construct. -/
def knownServerTypes : List String :=
  ["filesystem", "web_search", "terminal", "database"]

/-- Whether `_initialize_server(name, config)` runs to completion:
construction of an unknown type raises, and an otherwise-known server's
`initialize()` succeeds or raises depending on the environment. -/
def initOutcome (env : String → Bool) (name : String) : Bool :=
  name ∈ knownServerTypes ∧ env name

/-- `MCPServerManager._initialize_servers`: iterate the configs in dict
(insertion) order; an enabled server that initializes successfully is
registered; a failure re-raises, aborting the loop with the registry as
it stands. Returns the outcome and the final registry (server names). -/
def _initialize_servers (env : String → Bool) :
    List ServerCfg → List String → Except PyErr Unit × List String
  | [], reg => (.ok (), reg)
  | c :: rest, reg =>
    if c.enabled then
      if initOutcome env c.name then _initialize_servers env rest (reg ++ [c.name])
      else (.error (.valueError "Failed to initialize server"), reg)
    else _initialize_servers env rest reg

/-- The manager's default `server_configs`, in dict insertion order, with
every server enabled (the default `enabled: True` of each block). -/
def defaultServerConfigs : List ServerCfg :=
  [⟨"filesystem", true⟩, ⟨"web_search", true⟩, ⟨"terminal", true⟩, ⟨"database", true⟩]

/-- The names `_initialize_servers` registers from a config list when
every enabled server initializes successfully. -/
def enabledNames (configs : List ServerCfg) : List String :=
  (configs.filter (fun c => c.enabled)).map (fun c => c.name)

/-- Manager state relevant to routing: the registry of active server
names and the `is_initialized` flag. -/
structure Manager where
  servers : List String
  is_initialized : Bool
  deriving Repr, DecidableEq

/-- `MCPServerManager._extract_server_type`: fixed `startswith` matches,
`ValueError` otherwise. Methods are `Str` like every other string. -/
def _extract_server_type (method : Str) : Except PyErr String :=
  if "filesystem/".toList.isPrefixOf method then .ok "filesystem"
  else if "web/".toList.isPrefixOf method then .ok "web_search"
  else if "terminal/".toList.isPrefixOf method then .ok "terminal"
  else if "database/".toList.isPrefixOf method then .ok "database"
  else .error (.valueError "Unknown method prefix")

/-- `MCPServerManager.handle_request`: guard on `is_initialized`, resolve
the server type from the method prefix, look it up in the registry, and
forward; the `except` clause only logs and re-raises, so a handler
exception comes back unchanged as `.error`. `handlers` is the behaviour
of each registered server's `handle_request`. -/
def handle_request {α : Type} (mgr : Manager)
    (handlers : String → Str → Except PyErr α) (method : Str) : Except PyErr α :=
  if ¬ mgr.is_initialized then
    .error (.runtimeError "MCP server manager not initialized")
  else
    match _extract_server_type method with
    | .error e => .error e
    | .ok server_type =>
      if server_type ∈ mgr.servers then handlers server_type method
      else .error (.valueError "Server not available")

/-!
## Filesystem MCP server (`filesystem_server.py`)

POSIX paths are modelled as an absolute flag plus a component list
(`pathlib` drops empty and `.` segments on construction and keeps `..`);
`Path.resolve()` is the lexical canonicalization `canonParts` (symlinks
are not modelled: the security check consumes whatever `resolve()`
returns, so the claims are insensitive to how symlinks resolve).
The disk is a map from canonical absolute component lists to file
contents plus a set of directories; `io` records every canonical path a
call touched, so "fails before any I/O" is "`io` is empty".
-/

/-- A path component list. -/
abbrev Comps := List Str

/-- A `pathlib.Path`: absolute flag plus components. -/
structure PyPath where
  absolute : Bool
  parts : Comps
  deriving Repr, DecidableEq

/-- Split a raw path string at `/`. -/
def splitSlash : Str → List Str
  | [] => [[]]
  | c :: cs =>
    match splitSlash cs with
    | [] => [[]]
    | h :: t => if c = '/' then [] :: h :: t else (c :: h) :: t

/-- `pathlib.Path(s)`: absolute iff the string starts with `/`; empty and
`.` segments are dropped, `..` is kept. -/
def parsePath (s : Str) : PyPath :=
  ⟨(match s with | '/' :: _ => true | _ => false),
   (splitSlash s).filter (fun c => ¬ c = [] ∧ ¬ c = ".".toList)⟩

/-- Lexical `Path.resolve()` on the components of an absolute path:
`..` pops a component (and stays at the root when there is nothing to
pop), everything else is pushed. -/
def canonParts (parts : Comps) : Comps :=
  parts.foldl (fun acc c => if c = "..".toList then acc.dropLast else acc ++ [c]) []

/-- `FilesystemMCPServer._resolve_path`: an absolute path is taken as-is,
a relative one is joined under the root. -/
def _resolve_path (root_path : PyPath) (path : Str) : PyPath :=
  let p := parsePath path
  if p.absolute then p else ⟨root_path.absolute, root_path.parts ++ p.parts⟩

/-- `FilesystemMCPServer._validate_path`:
`path.resolve().relative_to(self.root_path.resolve())` succeeds exactly
when the canonical root components are a prefix of the canonical path
components; otherwise `ValueError(f"Access denied: ...")`. -/
def _validate_path (root_path : PyPath) (p : PyPath) : Except PyErr Unit :=
  if (canonParts root_path.parts) <+: (canonParts p.parts) then .ok ()
  else .error (.valueError "Access denied")

/-- The descendant-of-root relation the security contract asserts. -/
def isDescendant (root_path : PyPath) (p : PyPath) : Prop :=
  (canonParts root_path.parts) <+: (canonParts p.parts)

instance (root_path : PyPath) (p : PyPath) : Decidable (isDescendant root_path p) :=
  inferInstanceAs (Decidable (_ <+: _))

/-- The disk: canonical absolute paths of regular files with their
contents, and canonical absolute paths of directories. -/
structure FsState where
  files : List (Comps × Str)
  dirs : List Comps
  deriving Repr, DecidableEq

/-- `st_size` of a file written with UTF-8 encoding, and also the byte
size checked by `read_file`'s `file_size > max_file_size` guard. -/
def utf8Len (s : Str) : Nat :=
  s.foldl (fun n c => n + c.utf8Size) 0

/-- Whether a regular file exists at a canonical path. -/
def isFileAt (st : FsState) (c : Comps) : Bool :=
  (st.files.lookup c).isSome

/-- Whether a directory exists at a canonical path. -/
def isDirAt (st : FsState) (c : Comps) : Bool :=
  decide (c ∈ st.dirs)

/-- `Path.exists()`. -/
def existsAt (st : FsState) (c : Comps) : Bool :=
  isFileAt st c ∨ isDirAt st c

/-- Store file content at a canonical path (dict-style overwrite). -/
def fsSetFile (files : List (Comps × Str)) (c : Comps) (content : Str) :
    List (Comps × Str) :=
  (files.filter (fun e => ¬ e.1 = c)) ++ [(c, content)]

/-- The proper ancestors of a canonical path (all strict prefixes,
including the filesystem root `[]`). -/
def ancestorsOf (c : Comps) : List Comps :=
  (List.range c.length).map (fun i => c.take i)

/-- Add directories (deduplicating against what is already present). -/
def addDirs (st : FsState) (ds : List Comps) : FsState :=
  { st with dirs := st.dirs ++ ds.filter (fun d => ¬ d ∈ st.dirs) }

/-- All entries (files and directories) on the disk. -/
def allEntries (st : FsState) : List Comps :=
  st.files.map Prod.fst ++ st.dirs

/-- Configuration of `FilesystemMCPServer`: root path and the hardcoded
`max_file_size = 10 * 1024 * 1024` (`__init__` ignores the manager's
`max_file_size` config key). -/
structure FsServer where
  root_path : PyPath
  max_file_size : Nat
  deriving Repr, DecidableEq

/-- The stock server: `max_file_size` is 10 MB. -/
def mkFsServer (root_path : PyPath) : FsServer :=
  ⟨root_path, 10 * 1024 * 1024⟩

/-- Result payloads of the filesystem operations (the fields the claims
mention; metadata such as timestamps is omitted). -/
inductive FsVal where
  | readRes (content : Str) (size : Nat)
  | writeRes (size : Nat)
  | listRes (items : List Comps)
  | searchRes (items : List Comps)
  | mkdirRes
  | deleteRes
  | copyRes
  | moveRes
  | infoRes (c : Comps) (isFile : Bool)
  deriving Repr, DecidableEq

/-- Everything observable about one filesystem call: outcome, disk after
the call, and the canonical paths touched by any I/O. -/
structure FsOut where
  res : Except PyErr FsVal
  st : FsState
  io : List Comps
  deriving Repr

/-- `FilesystemMCPServer.read_file` (`filesystem/read`). -/
def read_file (srv : FsServer) (st : FsState) (path : Str) : FsOut :=
  if path = [] then ⟨.error (.valueError "Path parameter is required"), st, []⟩
  else
    let full := _resolve_path srv.root_path path
    match _validate_path srv.root_path full with
    | .error e => ⟨.error e, st, []⟩
    | .ok () =>
      let c := canonParts full.parts
      if ¬ existsAt st c then ⟨.error (.fileNotFoundError "File not found"), st, [c]⟩
      else if ¬ isFileAt st c then ⟨.error (.valueError "Path is not a file"), st, [c]⟩
      else
        let content := ((st.files.lookup c).getD [])
        let file_size := utf8Len content
        if srv.max_file_size < file_size then
          ⟨.error (.valueError "File too large"), st, [c]⟩
        else ⟨.ok (.readRes content file_size), st, [c]⟩

/-- `FilesystemMCPServer.write_file` (`filesystem/write`): existence
check honouring `overwrite`, `parent.mkdir(parents=True, exist_ok=True)`,
then write (UTF-8). An ancestor that is a regular file makes the mkdir
raise; opening a directory path for writing raises. -/
def write_file (srv : FsServer) (st : FsState) (path content : Str)
    (overwrite : Bool) : FsOut :=
  if path = [] then ⟨.error (.valueError "Path parameter is required"), st, []⟩
  else
    let full := _resolve_path srv.root_path path
    match _validate_path srv.root_path full with
    | .error e => ⟨.error e, st, []⟩
    | .ok () =>
      let c := canonParts full.parts
      if existsAt st c ∧ ¬ overwrite then
        ⟨.error (.fileExistsError "File already exists"), st, [c]⟩
      else if (ancestorsOf c).any (fun a => isFileAt st a) then
        ⟨.error (.osError "NotADirectoryError"), st, [c]⟩
      else if isDirAt st c then
        ⟨.error (.osError "IsADirectoryError"), st, [c]⟩
      else
        ⟨.ok (.writeRes content.length),
         { (addDirs st (ancestorsOf c)) with files := fsSetFile st.files c content },
         [c]⟩

/-- Direct children of a canonical directory path. -/
def childrenOf (st : FsState) (c : Comps) : List Comps :=
  (allEntries st).filter (fun k => c <+: k ∧ k.length = c.length + 1)

/-- All strict descendants of a canonical directory path. -/
def strictUnder (st : FsState) (c : Comps) : List Comps :=
  (allEntries st).filter (fun k => c <+: k ∧ ¬ k = c)

/-- Hidden-name filter: the entry's final component starts with a dot. -/
def isHiddenName (k : Comps) : Bool :=
  match k.getLast? with
  | some (d :: _) => d = '.'
  | _ => false

/-- `FilesystemMCPServer.list_directory` (`filesystem/list`); the path
parameter defaults to `"."` at the call site and is not
required-checked. -/
def list_directory (srv : FsServer) (st : FsState) (path : Str)
    (include_hidden recursive : Bool) : FsOut :=
  let full := _resolve_path srv.root_path path
  match _validate_path srv.root_path full with
  | .error e => ⟨.error e, st, []⟩
  | .ok () =>
    let c := canonParts full.parts
    if ¬ existsAt st c then ⟨.error (.fileNotFoundError "Directory not found"), st, [c]⟩
    else if ¬ isDirAt st c then ⟨.error (.valueError "Path is not a directory"), st, [c]⟩
    else
      let raw := if recursive then strictUnder st c else childrenOf st c
      let items := if include_hidden then raw else raw.filter (fun k => ¬ isHiddenName k)
      ⟨.ok (.listRes items), st, c :: items⟩

/-- Python `str.lower()` (ASCII fragment). -/
def pyLower (s : Str) : Str :=
  s.map Char.toLower

/-- Requested entry kind of `filesystem/search`. -/
inductive SearchType where
  | fileT | dirT | anyT
  deriving Repr, DecidableEq

/-- `FilesystemMCPServer.search_files` (`filesystem/search`); the glob
over `full_path / pattern` is approximated as the direct children of the
validated directory, then filtered by the source's type filter and its
name-containment filter (case folding per `case_sensitive`). -/
def search_files (srv : FsServer) (st : FsState) (path pattern : Str)
    (case_sensitive : Bool) (file_type : SearchType) : FsOut :=
  let full := _resolve_path srv.root_path path
  match _validate_path srv.root_path full with
  | .error e => ⟨.error e, st, []⟩
  | .ok () =>
    let c := canonParts full.parts
    if ¬ existsAt st c then ⟨.error (.fileNotFoundError "Search path not found"), st, [c]⟩
    else if ¬ isDirAt st c then ⟨.error (.valueError "Search path is not a directory"), st, [c]⟩
    else
      let cand := childrenOf st c
      let typed := cand.filter (fun k =>
        match file_type with
        | .fileT => isFileAt st k
        | .dirT => isDirAt st k
        | .anyT => true)
      let named := typed.filter (fun k =>
        let nm := k.getLastD []
        if case_sensitive then containsSub pattern nm
        else containsSub (pyLower pattern) (pyLower nm))
      ⟨.ok (.searchRes named), st, c :: named⟩

/-- `FilesystemMCPServer.create_directory` (`filesystem/create_directory`):
`mkdir(parents=True, exist_ok=True)` — raises when the path or one of its
ancestors already exists as a regular file. -/
def create_directory (srv : FsServer) (st : FsState) (path : Str) : FsOut :=
  if path = [] then ⟨.error (.valueError "Path parameter is required"), st, []⟩
  else
    let full := _resolve_path srv.root_path path
    match _validate_path srv.root_path full with
    | .error e => ⟨.error e, st, []⟩
    | .ok () =>
      let c := canonParts full.parts
      if isFileAt st c then ⟨.error (.fileExistsError "FileExistsError"), st, [c]⟩
      else if (ancestorsOf c).any (fun a => isFileAt st a) then
        ⟨.error (.osError "NotADirectoryError"), st, [c]⟩
      else ⟨.ok .mkdirRes, addDirs st (ancestorsOf c ++ [c]), [c]⟩

/-- `FilesystemMCPServer.delete_file` (`filesystem/delete`): unlink a
file, `shutil.rmtree` a directory. -/
def delete_file (srv : FsServer) (st : FsState) (path : Str) : FsOut :=
  if path = [] then ⟨.error (.valueError "Path parameter is required"), st, []⟩
  else
    let full := _resolve_path srv.root_path path
    match _validate_path srv.root_path full with
    | .error e => ⟨.error e, st, []⟩
    | .ok () =>
      let c := canonParts full.parts
      if ¬ existsAt st c then ⟨.error (.fileNotFoundError "File not found"), st, [c]⟩
      else if isFileAt st c then
        ⟨.ok .deleteRes, { st with files := st.files.filter (fun e => ¬ e.1 = c) }, [c]⟩
      else
        ⟨.ok .deleteRes,
         ⟨st.files.filter (fun e => ¬ c <+: e.1),
          st.dirs.filter (fun d => ¬ c <+: d)⟩,
         [c]⟩

/-- Relocate a canonical path from under `src` to under `dst`. -/
def rebase (src dst k : Comps) : Comps :=
  dst ++ k.drop src.length

/-- `shutil.copy2` / `shutil.copytree(dirs_exist_ok=True)` onto a
destination (copying onto an existing directory goes inside it). -/
def copyInto (st : FsState) (cs cd : Comps) : FsState :=
  let target := if isDirAt st cd then cd ++ [cs.getLastD []] else cd
  if isFileAt st cs then
    { st with files := fsSetFile st.files target ((st.files.lookup cs).getD []) }
  else
    let movedFiles := (st.files.filter (fun e => cs <+: e.1)).map
      (fun e => (rebase cs target e.1, e.2))
    let movedDirs := (st.dirs.filter (fun d => cs <+: d)).map (rebase cs target)
    ⟨(movedFiles.foldl (fun fs e => fsSetFile fs e.1 e.2) st.files),
     st.dirs ++ movedDirs.filter (fun d => ¬ d ∈ st.dirs)⟩

/-- `FilesystemMCPServer.copy_file` (`filesystem/copy`): both paths are
resolved and validated (source first) before the existence check and the
copy. -/
def copy_file (srv : FsServer) (st : FsState) (source destination : Str) : FsOut :=
  if source = [] ∨ destination = [] then
    ⟨.error (.valueError "Source and destination parameters are required"), st, []⟩
  else
    let source_full := _resolve_path srv.root_path source
    let dest_full := _resolve_path srv.root_path destination
    match _validate_path srv.root_path source_full with
    | .error e => ⟨.error e, st, []⟩
    | .ok () =>
      match _validate_path srv.root_path dest_full with
      | .error e => ⟨.error e, st, []⟩
      | .ok () =>
        let cs := canonParts source_full.parts
        let cd := canonParts dest_full.parts
        if ¬ existsAt st cs then
          ⟨.error (.fileNotFoundError "Source file not found"), st, [cs]⟩
        else ⟨.ok .copyRes, copyInto st cs cd, [cs, cd]⟩

/-- `FilesystemMCPServer.move_file` (`filesystem/move`): like copy, then
the source is gone (`shutil.move`). -/
def move_file (srv : FsServer) (st : FsState) (source destination : Str) : FsOut :=
  if source = [] ∨ destination = [] then
    ⟨.error (.valueError "Source and destination parameters are required"), st, []⟩
  else
    let source_full := _resolve_path srv.root_path source
    let dest_full := _resolve_path srv.root_path destination
    match _validate_path srv.root_path source_full with
    | .error e => ⟨.error e, st, []⟩
    | .ok () =>
      match _validate_path srv.root_path dest_full with
      | .error e => ⟨.error e, st, []⟩
      | .ok () =>
        let cs := canonParts source_full.parts
        let cd := canonParts dest_full.parts
        if ¬ existsAt st cs then
          ⟨.error (.fileNotFoundError "Source file not found"), st, [cs]⟩
        else
          let st1 := copyInto st cs cd
          ⟨.ok .moveRes,
           ⟨st1.files.filter (fun e => ¬ cs <+: e.1),
            st1.dirs.filter (fun d => ¬ cs <+: d)⟩,
           [cs, cd]⟩

/-- `FilesystemMCPServer.get_file_info` (`filesystem/get_info`). -/
def get_file_info (srv : FsServer) (st : FsState) (path : Str) : FsOut :=
  if path = [] then ⟨.error (.valueError "Path parameter is required"), st, []⟩
  else
    let full := _resolve_path srv.root_path path
    match _validate_path srv.root_path full with
    | .error e => ⟨.error e, st, []⟩
    | .ok () =>
      let c := canonParts full.parts
      if ¬ existsAt st c then ⟨.error (.fileNotFoundError "File not found"), st, [c]⟩
      else ⟨.ok (.infoRes c (isFileAt st c)), st, [c]⟩

/-- One call to a filesystem-server operation, with its arguments. -/
inductive FsOp where
  | read (path : Str)
  | write (path content : Str) (overwrite : Bool)
  | list (path : Str) (include_hidden recursive : Bool)
  | search (path pattern : Str) (case_sensitive : Bool) (file_type : SearchType)
  | createDirectory (path : Str)
  | delete (path : Str)
  | copy (source destination : Str)
  | move (source destination : Str)
  | getInfo (path : Str)
  deriving Repr, DecidableEq

/-- Dispatch of the nine `filesystem/*` methods. -/
def runFs (srv : FsServer) (st : FsState) : FsOp → FsOut
  | .read path => read_file srv st path
  | .write path content overwrite => write_file srv st path content overwrite
  | .list path ih rec => list_directory srv st path ih rec
  | .search path pat cs ft => search_files srv st path pat cs ft
  | .createDirectory path => create_directory srv st path
  | .delete path => delete_file srv st path
  | .copy s d => copy_file srv st s d
  | .move s d => move_file srv st s d
  | .getInfo path => get_file_info srv st path

/-- The path arguments of an operation (the glob pattern of `search` is
a name filter, not a path argument). -/
def argPaths : FsOp → List Str
  | .read path => [path]
  | .write path _ _ => [path]
  | .list path _ _ => [path]
  | .search path _ _ _ => [path]
  | .createDirectory path => [path]
  | .delete path => [path]
  | .copy s d => [s, d]
  | .move s d => [s, d]
  | .getInfo path => [path]

/-!
## Auxiliary definitions used by the statements below
-/

/-- Registry invariant of the terminal server: process ids are unique,
no two entries share a child pid, every registered child is live, and
live pids are below the fresh-pid counter. -/
def RegInv (st : TerminalServer) (os : Os) : Prop :=
  (st.running_processes.map Prod.fst).Nodup ∧
  (st.running_processes.map Prod.snd).Nodup ∧
  (∀ e ∈ st.running_processes, e.2 ∈ os.live) ∧
  (∀ p ∈ os.live, p < os.nextPid)

/-- Characters that are ordinary for the tokenizer: not quotes, not the
escape character, not whitespace other than a plain space. -/
def ordinaryChar (c : Char) : Bool :=
  ¬ (c = '\'' ∨ c = '"' ∨ c = '\\' ∨ c = '\t' ∨ c = '\n' ∨ c = '\r')

/-- Shape shared by all terminal dangerous patterns: nonempty, ordinary
characters only, no leading/trailing space, no two adjacent spaces. -/
def goodPattern (p : Str) : Bool :=
  ¬ p = [] ∧ p.all ordinaryChar ∧ ¬ p.headD ' ' = ' ' ∧ ¬ p.getLastD ' ' = ' ' ∧
  ¬ containsSub [' ', ' '] p

/-- Tokenizer states in the middle of a token (inside a word or inside a
quote, with a nonempty pending token). -/
def Wst (s : ShState) : Prop :=
  (s.mode = .norm ∨ s.mode = .quoteS ∨ s.mode = .quoteD) ∧
  ∃ t, s.cur = some t ∧ ¬ t = []

/-- A sandbox root `/sandbox` used by the concrete filesystem scenarios. -/
def sbRoot : PyPath := ⟨true, ["sandbox".toList]⟩

/-- The filesystem server rooted at `/sandbox`. -/
def sbSrv : FsServer := mkFsServer sbRoot

/-- A disk holding `/sandbox/a.txt` with content `old`. -/
def sbSt : FsState := ⟨[(["sandbox".toList, "a.txt".toList], "old".toList)], [["sandbox".toList]]⟩

/-- An empty sandbox disk. -/
def sbEmpty : FsState := ⟨[], [["sandbox".toList]]⟩

/-- A terminal server whose allowlist contains `sleep`. -/
def sleepSrv : TerminalServer := ⟨"/work".toList, ["sleep".toList], [], [], 100⟩

/-- A server registry whose handlers all raise `ValueError("boom")`. -/
def boomHandlers : String → Str → Except PyErr Unit :=
  fun _ _ => .error (.valueError "boom")

/-- An environment in which every server type except `filesystem`
initializes successfully. -/
def failFsEnv : String → Bool :=
  fun n => !(n == "filesystem")

/-!
## Helper lemmas
-/

theorem containsSub_iff (p h : Str) : containsSub p h = true ↔ p <:+: h := by
  simp [containsSub]

theorem infix_dropWhile_of_head (w : Char → Bool) (p : Str) (hne : ¬ p = [])
    (hh : w (p.headD ' ') = false) :
    ∀ l : Str, p <:+: l → p <:+: l.dropWhile w := by
  intro l
  induction l with
  | nil =>
    intro h
    simp only [List.dropWhile_nil]
    exact h
  | cons c t ih =>
    intro h
    by_cases hc : w c = true
    · rw [List.dropWhile_cons, if_pos hc]
      rcases List.infix_cons_iff.mp h with hpre | hinf
      · exfalso
        obtain ⟨a, p2, rfl⟩ := List.exists_cons_of_ne_nil hne
        have ha : a = c := (List.cons_prefix_cons.mp hpre).1
        simp only [List.headD_cons] at hh
        rw [ha, hc] at hh
        exact Bool.true_eq_false.mp hh
      · exact ih hinf
    · rw [List.dropWhile_cons, if_neg hc]
      exact h

theorem infix_pyStrip (p l : Str) (hne : ¬ p = [])
    (hh : isPySpace (p.headD ' ') = false)
    (hl : isPySpace (p.reverse.headD ' ') = false)
    (h : p <:+: l) : p <:+: pyStrip l := by
  unfold pyStrip
  have hne2 : ¬ p.reverse = [] := by
    simpa using hne
  have h1 : p <:+: l.dropWhile isPySpace :=
    infix_dropWhile_of_head isPySpace p hne hh l h
  have h2 : p.reverse <:+: (l.dropWhile isPySpace).reverse :=
    List.reverse_infix.mpr h1
  have h3 : p.reverse <:+: ((l.dropWhile isPySpace).reverse).dropWhile isPySpace :=
    infix_dropWhile_of_head isPySpace p.reverse hne2 hl _ h2
  exact List.reverse_infix.mp (by simpa using h3)

theorem validate_query_rejects (allowed : List Str) (q : Str)
    (h : findOperation allowed (pyStrip (pyUpper q)) = none ∨
         ∃ p ∈ queryDangerousPatterns, p <:+: pyStrip (pyUpper q)) :
    ∃ m, validate_query allowed q = .error (.valueError m) := by
  rcases h with h1 | ⟨p, hmem, hinf⟩
  · exact ⟨"Operation not allowed", by simp [validate_query, h1]⟩
  · have hany : queryDangerousPatterns.any
        (fun pp => containsSub pp (pyStrip (pyUpper q))) = true :=
      List.any_eq_true.mpr ⟨p, hmem, (containsSub_iff _ _).mpr hinf⟩
    cases hfo : findOperation allowed (pyStrip (pyUpper q)) with
    | none => exact ⟨"Operation not allowed", by simp [validate_query, hfo]⟩
    | some op =>
      by_cases hop : op = []
      · exact ⟨"Operation not allowed", by simp [validate_query, hfo, hop]⟩
      · exact ⟨"Dangerous SQL pattern detected", by simp [validate_query, hfo, hop, hany]⟩

theorem validate_statement_rejects (allowed : List Str) (s : Str)
    (h : findOperation allowed (pyStrip (pyUpper s)) = none ∨
         ∃ p ∈ statementDangerousPatterns, p <:+: pyStrip (pyUpper s)) :
    ∃ m, validate_statement allowed s = .error (.valueError m) := by
  rcases h with h1 | ⟨p, hmem, hinf⟩
  · exact ⟨"Operation not allowed", by simp [validate_statement, h1]⟩
  · have hany : statementDangerousPatterns.any
        (fun pp => containsSub pp (pyStrip (pyUpper s))) = true :=
      List.any_eq_true.mpr ⟨p, hmem, (containsSub_iff _ _).mpr hinf⟩
    cases hfo : findOperation allowed (pyStrip (pyUpper s)) with
    | none => exact ⟨"Operation not allowed", by simp [validate_statement, hfo]⟩
    | some op =>
      by_cases hop : op = []
      · exact ⟨"Operation not allowed", by simp [validate_statement, hfo, hop]⟩
      · exact ⟨"Dangerous SQL pattern detected",
          by simp [validate_statement, hfo, hop, hany]⟩

theorem execute_query_of_validate_err (srv : DbServer) (q db : Str)
    (h : ¬ q = [] → ∃ m, validate_query srv.allowed_operations q = .error (.valueError m)) :
    (∃ m, (execute_query srv q db).res = .error (.valueError m)) ∧
    (execute_query srv q db).engine = [] := by
  by_cases hq : q = []
  · subst hq
    exact ⟨⟨"Query parameter is required", by simp [execute_query]⟩, by simp [execute_query]⟩
  · obtain ⟨m, hm⟩ := h hq
    exact ⟨⟨m, by simp [execute_query, hq, hm]⟩, by simp [execute_query, hq, hm]⟩

theorem execute_statement_of_validate_err (srv : DbServer) (s db : Str)
    (h : ¬ s = [] → ∃ m, validate_statement srv.allowed_operations s = .error (.valueError m)) :
    (∃ m, (execute_statement srv s db).res = .error (.valueError m)) ∧
    (execute_statement srv s db).engine = [] := by
  by_cases hs : s = []
  · subst hs
    exact ⟨⟨"Statement parameter is required", by simp [execute_statement]⟩,
      by simp [execute_statement]⟩
  · obtain ⟨m, hm⟩ := h hs
    exact ⟨⟨m, by simp [execute_statement, hs, hm]⟩, by simp [execute_statement, hs, hm]⟩

/-- C10: the two validators are asymmetric. Every `database/query`
statement whose uppercased text contains `DELETE FROM` is rejected with a
`ValueError` before reaching the engine (the query denylist contains
`DELETE FROM` even though `DELETE` is allowlisted), while the
`database/execute` denylist lacks that entry and a plain allowlisted
`DELETE FROM` statement is accepted and reaches the engine. -/
theorem c10_delete_from_asymmetry :
    (∀ q : Str, "DELETE FROM".toList <:+: pyUpper q →
        (∃ m, (execute_query defaultDbServer q "default".toList).res =
            .error (.valueError m)) ∧
        (execute_query defaultDbServer q "default".toList).engine = []) ∧
    "DELETE FROM".toList ∈ queryDangerousPatterns ∧
    ¬ "DELETE FROM".toList ∈ statementDangerousPatterns ∧
    "DELETE".toList ∈ defaultAllowedOperations ∧
    (execute_statement defaultDbServer "DELETE FROM users WHERE id = 1".toList
        "default".toList).res = .ok () ∧
    (execute_statement defaultDbServer "DELETE FROM users WHERE id = 1".toList
        "default".toList).engine = ["DELETE FROM users WHERE id = 1".toList] := by
  refine ⟨?_, by decide, by decide, by decide, by decide, by decide⟩
  intro q hinf
  apply execute_query_of_validate_err
  intro _
  apply validate_query_rejects
  right
  exact ⟨"DELETE FROM".toList, by decide,
    infix_pyStrip _ (pyUpper q) (by decide) (by decide) (by decide) hinf⟩

/-- C10 witness: `delete from users` is rejected on the query path. -/
theorem c10_delete_from_asymmetry_witness :
    ("DELETE FROM".toList <:+: pyUpper "delete from users".toList) ∧
    ((∃ m, (execute_query defaultDbServer "delete from users".toList
        "default".toList).res = .error (.valueError m)) ∧
     (execute_query defaultDbServer "delete from users".toList
        "default".toList).engine = []) :=
  ⟨by decide, c10_delete_from_asymmetry.1 "delete from users".toList (by decide)⟩

/-- C2 counterexample: `SELECTIVE 1` has the leading verb `SELECTIVE`,
which is outside the default allowlist, yet `database/query` accepts it
and hands it to the engine, because `_validate_query` only tests whether
an allowlisted verb is a string prefix of the statement. -/
theorem c2_counterexample :
    ¬ leadingVerb "SELECTIVE 1".toList ∈ defaultAllowedOperations ∧
    (execute_query defaultDbServer "SELECTIVE 1".toList "default".toList).res = .ok () ∧
    (execute_query defaultDbServer "SELECTIVE 1".toList "default".toList).engine =
      ["SELECTIVE 1".toList] := by decide

/-- C2 (amended): for every SQL string submitted to `database/query` or
`database/execute`, if no allowlisted verb is a string prefix of the
uppercased, stripped statement, or the uppercased statement contains a
denylisted destructive keyword of the respective path, the call is
rejected with a `ValueError` before any statement reaches the database
engine; both checks apply independently and case-insensitively, so in
particular `query("DROP TABLE users")` is rejected. -/
theorem c2_amended_rejection (srv : DbServer) (q s db : Str)
    (hq : findOperation srv.allowed_operations (pyStrip (pyUpper q)) = none ∨
          ∃ p ∈ queryDangerousPatterns, p <:+: pyStrip (pyUpper q))
    (hs : findOperation srv.allowed_operations (pyStrip (pyUpper s)) = none ∨
          ∃ p ∈ statementDangerousPatterns, p <:+: pyStrip (pyUpper s)) :
    ((∃ m, (execute_query srv q db).res = .error (.valueError m)) ∧
     (execute_query srv q db).engine = []) ∧
    ((∃ m, (execute_statement srv s db).res = .error (.valueError m)) ∧
     (execute_statement srv s db).engine = []) :=
  ⟨execute_query_of_validate_err srv q db
      (fun _ => validate_query_rejects srv.allowed_operations q hq),
   execute_statement_of_validate_err srv s db
      (fun _ => validate_statement_rejects srv.allowed_operations s hs)⟩

/-- C2 witness: `DROP TABLE users` is rejected on both paths before
reaching the engine. -/
theorem c2_amended_rejection_witness :
    (findOperation defaultDbServer.allowed_operations
        (pyStrip (pyUpper "DROP TABLE users".toList)) = none ∨
      ∃ p ∈ queryDangerousPatterns, p <:+: pyStrip (pyUpper "DROP TABLE users".toList)) ∧
    (findOperation defaultDbServer.allowed_operations
        (pyStrip (pyUpper "DROP TABLE users".toList)) = none ∨
      ∃ p ∈ statementDangerousPatterns, p <:+: pyStrip (pyUpper "DROP TABLE users".toList)) ∧
    ((∃ m, (execute_query defaultDbServer "DROP TABLE users".toList
        "default".toList).res = .error (.valueError m)) ∧
     (execute_query defaultDbServer "DROP TABLE users".toList
        "default".toList).engine = []) ∧
    ((∃ m, (execute_statement defaultDbServer "DROP TABLE users".toList
        "default".toList).res = .error (.valueError m)) ∧
     (execute_statement defaultDbServer "DROP TABLE users".toList
        "default".toList).engine = []) := by
  refine ⟨by decide, by decide, ?_⟩
  exact c2_amended_rejection defaultDbServer "DROP TABLE users".toList
    "DROP TABLE users".toList "default".toList (by decide) (by decide)

theorem trim_step_eq {α : Type} (m : Nat) (l : List α) (x : α) :
    (if m < (l ++ [x]).length then (l ++ [x]).drop ((l ++ [x]).length - m) else l ++ [x])
      = (l ++ [x]).drop ((l ++ [x]).length - m) := by
  by_cases h : m < (l ++ [x]).length
  · rw [if_pos h]
  · rw [if_neg h]
    have : (l ++ [x]).length - m = 0 := Nat.sub_eq_zero_of_le (Nat.le_of_not_lt h)
    rw [this, List.drop_zero]

theorem dropSuffix_comp {α : Type} (m : Nat) (T xs : List α) :
    ((T.drop (T.length - m)) ++ xs).drop (((T.drop (T.length - m)) ++ xs).length - m) =
      (T ++ xs).drop ((T ++ xs).length - m) := by
  have h1 : (T.drop (T.length - m)) ++ xs = (T ++ xs).drop (T.length - m) :=
    (List.drop_append_of_le_length (Nat.sub_le _ _)).symm
  rw [h1, List.drop_drop]
  congr 1
  simp only [List.length_drop, List.length_append]
  omega

theorem foldl_trim {α : Type} (m : Nat) :
    ∀ (xs l : List α), l.length ≤ m →
      xs.foldl (fun acc x =>
        if m < (acc ++ [x]).length then (acc ++ [x]).drop ((acc ++ [x]).length - m)
        else acc ++ [x]) l
      = (l ++ xs).drop ((l ++ xs).length - m) := by
  intro xs
  induction xs with
  | nil =>
    intro l hl
    simp [Nat.sub_eq_zero_of_le hl]
  | cons x xs ih =>
    intro l hl
    rw [List.foldl_cons, trim_step_eq m l x]
    have hlen : ((l ++ [x]).drop ((l ++ [x]).length - m)).length ≤ m := by
      simp only [List.length_drop]
      omega
    rw [ih _ hlen, dropSuffix_comp m (l ++ [x]) xs]
    simp

theorem terminal_hist_fold (items : List HistoryItem) :
    ∀ st : TerminalServer,
      (items.foldl terminalAddToHistory st).max_history = st.max_history ∧
      (items.foldl terminalAddToHistory st).command_history =
        items.foldl (fun acc i =>
          if st.max_history < (acc ++ [i]).length
          then (acc ++ [i]).drop ((acc ++ [i]).length - st.max_history)
          else acc ++ [i]) st.command_history := by
  induction items with
  | nil => intro st; exact ⟨rfl, rfl⟩
  | cons i is ih =>
    intro st
    rw [List.foldl_cons, List.foldl_cons]
    exact ⟨(ih (terminalAddToHistory st i)).1, (ih (terminalAddToHistory st i)).2⟩

theorem db_hist_fold (items : List DbHistoryItem) :
    ∀ srv : DbServer,
      (items.foldl dbAddToHistory srv).max_history = srv.max_history ∧
      (items.foldl dbAddToHistory srv).query_history =
        items.foldl (fun acc i =>
          if srv.max_history < (acc ++ [i]).length
          then (acc ++ [i]).drop ((acc ++ [i]).length - srv.max_history)
          else acc ++ [i]) srv.query_history := by
  induction items with
  | nil => intro srv; exact ⟨rfl, rfl⟩
  | cons i is ih =>
    intro srv
    rw [List.foldl_cons, List.foldl_cons]
    exact ⟨(ih (dbAddToHistory srv i)).1, (ih (dbAddToHistory srv i)).2⟩

/-- C9: starting from any in-capacity state, any number of appends via
`_add_to_history` leaves the terminal command history and the database
query history at no more than 100 entries, and the surviving entries are
exactly the most recent ones in order (the suffix of the appended
sequence). -/
theorem c9_history_bounded
    (tst : TerminalServer) (dst : DbServer)
    (titems : List HistoryItem) (ditems : List DbHistoryItem)
    (htm : tst.max_history = 100) (hdm : dst.max_history = 100)
    (htl : tst.command_history.length ≤ 100) (hdl : dst.query_history.length ≤ 100) :
    ((titems.foldl terminalAddToHistory tst).command_history.length ≤ 100 ∧
     (titems.foldl terminalAddToHistory tst).command_history =
       (tst.command_history ++ titems).drop
         ((tst.command_history ++ titems).length - 100)) ∧
    ((ditems.foldl dbAddToHistory dst).query_history.length ≤ 100 ∧
     (ditems.foldl dbAddToHistory dst).query_history =
       (dst.query_history ++ ditems).drop
         ((dst.query_history ++ ditems).length - 100)) := by
  have ht := (terminal_hist_fold titems tst).2
  have hd := (db_hist_fold ditems dst).2
  rw [htm] at ht
  rw [hdm] at hd
  rw [ht, foldl_trim 100 titems tst.command_history htl]
  rw [hd, foldl_trim 100 ditems dst.query_history hdl]
  refine ⟨⟨?_, rfl⟩, ⟨?_, rfl⟩⟩
  · simp only [List.length_drop]
    omega
  · simp only [List.length_drop]
    omega

/-- C9 witness: a concrete in-capacity pair of servers and append
sequences. -/
theorem c9_history_bounded_witness :
    (sleepSrv.max_history = 100 ∧ defaultDbServer.max_history = 100 ∧
     sleepSrv.command_history.length ≤ 100 ∧ defaultDbServer.query_history.length ≤ 100) ∧
    ((([⟨"echo a".toList, 0, true, "/work".toList⟩,
        ⟨"echo b".toList, 0, true, "/work".toList⟩] :
          List HistoryItem).foldl terminalAddToHistory sleepSrv).command_history.length ≤ 100 ∧
     ((([⟨"SELECT 1".toList, "default".toList, true⟩] :
          List DbHistoryItem).foldl dbAddToHistory defaultDbServer).query_history.length ≤ 100)) := by
  constructor
  · exact ⟨rfl, rfl, by decide, by decide⟩
  · have h := c9_history_bounded sleepSrv defaultDbServer
      [⟨"echo a".toList, 0, true, "/work".toList⟩,
       ⟨"echo b".toList, 0, true, "/work".toList⟩]
      [⟨"SELECT 1".toList, "default".toList, true⟩]
      rfl rfl (by decide) (by decide)
    exact ⟨h.1.1, h.2.1⟩

/-- C5 counterexample: with the default configs (all four servers
enabled, in dict order `filesystem, web_search, terminal, database`) and
an environment in which only `filesystem` fails to initialize,
`_initialize_servers` propagates the exception and registers nothing:
`terminal` and `database`, both enabled and both able to initialize, are
not initialized, and the failed server is absent rather than recorded
with an Error status. -/
theorem c5_counterexample :
    (_initialize_servers failFsEnv defaultServerConfigs []).1 =
      .error (.valueError "Failed to initialize server") ∧
    (_initialize_servers failFsEnv defaultServerConfigs []).2 = [] := by decide

/-- C5 (amended): during `Manager.initialize(configs)`, a failure of one
enabled server's construction or `initialize()` aborts initialization of
the remaining servers: the exception propagates out of
`_initialize_servers`, the enabled servers preceding the failing one (in
config order) are registered, and the failing server and every server
after it are not registered; no Error-status record is kept. -/
theorem c5_amended_first_failure_aborts (env : String → Bool)
    (pre post : List ServerCfg) (c : ServerCfg) (reg : List String)
    (hpre : ∀ d ∈ pre, d.enabled = true → initOutcome env d.name = true)
    (hc : c.enabled = true) (hfail : initOutcome env c.name = false) :
    _initialize_servers env (pre ++ c :: post) reg =
      (.error (.valueError "Failed to initialize server"), reg ++ enabledNames pre) := by
  induction pre generalizing reg with
  | nil =>
    simp only [List.nil_append, _initialize_servers, hc, if_true, hfail]
    simp [enabledNames]
  | cons d pre ih =>
    have hd := hpre d (by simp)
    by_cases hde : d.enabled = true
    · have hinit := hd hde
      rw [List.cons_append]
      simp only [_initialize_servers, hde, if_true, hinit]
      rw [ih _ (fun e he hee => hpre e (List.mem_cons_of_mem d he) hee)]
      simp [enabledNames, hde, List.append_assoc]
    · rw [List.cons_append]
      simp only [_initialize_servers, hde]
      rw [if_neg (by simp [hde])]
      rw [ih _ (fun e he hee => hpre e (List.mem_cons_of_mem d he) hee)]
      simp [enabledNames, hde]

/-- C5 witness: `terminal` succeeds first, `filesystem` fails, `database`
never runs. -/
theorem c5_amended_first_failure_aborts_witness :
    ((∀ d ∈ ([⟨"terminal", true⟩] : List ServerCfg), d.enabled = true →
        initOutcome failFsEnv d.name = true) ∧
     (ServerCfg.mk "filesystem" true).enabled = true ∧
     initOutcome failFsEnv "filesystem" = false) ∧
    _initialize_servers failFsEnv
        ([⟨"terminal", true⟩] ++ ⟨"filesystem", true⟩ :: [⟨"database", true⟩]) [] =
      (.error (.valueError "Failed to initialize server"),
       [] ++ enabledNames [⟨"terminal", true⟩]) :=
  ⟨⟨by decide, by decide, by decide⟩,
   c5_amended_first_failure_aborts failFsEnv [⟨"terminal", true⟩]
     [⟨"database", true⟩] ⟨"filesystem", true⟩ [] (by decide) (by decide) (by decide)⟩

/-- C6 counterexample: with an initialized manager whose `terminal`
server's handler raises `ValueError("boom")`, `handle_request` re-raises
the exception to its caller instead of returning a structured
InternalError-style value. -/
theorem c6_counterexample :
    handle_request ⟨["terminal"], true⟩ boomHandlers "terminal/execute".toList =
      .error (.valueError "boom") := by decide

/-- C6 (amended): `handle_request` resolves the target server from the
method's prefix (the fixed `startswith` matches `filesystem/`, `web/`,
`terminal/`, `database/`); an unknown prefix raises
`ValueError("Unknown method prefix")`, a known prefix whose server is not
registered raises `ValueError("Server not available")`, and when the
target is registered the server handler's outcome — result or exception —
is returned to the caller verbatim: handler exceptions propagate out of
the manager instead of being wrapped as structured errors. -/
theorem c6_amended_routing {α : Type} (mgr : Manager)
    (handlers : String → Str → Except PyErr α) (method : Str)
    (hinit : mgr.is_initialized = true) :
    (∀ t, _extract_server_type method = .ok t → t ∈ mgr.servers →
        handle_request mgr handlers method = handlers t method) ∧
    (∀ e, _extract_server_type method = .error e →
        handle_request mgr handlers method = .error e) ∧
    (∀ t, _extract_server_type method = .ok t → ¬ t ∈ mgr.servers →
        handle_request mgr handlers method = .error (.valueError "Server not available")) := by
  refine ⟨?_, ?_, ?_⟩
  · intro t ht hmem
    simp [handle_request, hinit, ht, hmem]
  · intro e he
    simp [handle_request, hinit, he]
  · intro t ht hmem
    simp [handle_request, hinit, ht, hmem]

/-- C6 witness: concrete routing of `terminal/execute` to a registered
`terminal` server whose handler raises, and of an unknown prefix. -/
theorem c6_amended_routing_witness :
    ((Manager.mk ["terminal"] true).is_initialized = true) ∧
    (_extract_server_type "terminal/execute".toList = .ok "terminal" ∧
     "terminal" ∈ (Manager.mk ["terminal"] true).servers ∧
     handle_request ⟨["terminal"], true⟩ boomHandlers "terminal/execute".toList =
       boomHandlers "terminal" "terminal/execute".toList) ∧
    (_extract_server_type "bogus/method".toList =
       .error (.valueError "Unknown method prefix") ∧
     handle_request ⟨["terminal"], true⟩ boomHandlers "bogus/method".toList =
       .error (.valueError "Unknown method prefix")) := by
  have h := c6_amended_routing ⟨["terminal"], true⟩ boomHandlers
    "terminal/execute".toList rfl
  have h2 := c6_amended_routing ⟨["terminal"], true⟩ boomHandlers
    "bogus/method".toList rfl
  refine ⟨rfl, ⟨by decide, by decide, ?_⟩, ⟨by decide, ?_⟩⟩
  · exact h.1 "terminal" (by decide) (by decide)
  · exact h2.2.1 (.valueError "Unknown method prefix") (by decide)

theorem validate_ok_of_desc (root p : PyPath) (h : isDescendant root p) :
    _validate_path root p = .ok () := by
  unfold isDescendant at h
  unfold _validate_path
  rw [if_pos h]

theorem validate_err_of_not_desc (root p : PyPath) (h : ¬ isDescendant root p) :
    _validate_path root p = .error (.valueError "Access denied") := by
  unfold isDescendant at h
  unfold _validate_path
  rw [if_neg h]

/-- C1: for every filesystem-server operation and every (nonempty) path
argument, relative or absolute, either every canonicalized resolved path
argument is a descendant of the configured root, or the call fails with
the access-denied error, with the disk unchanged and no I/O performed —
never partial success. -/
theorem c1_path_containment (srv : FsServer) (st : FsState) (op : FsOp)
    (hargs : ∀ q ∈ argPaths op, ¬ q = []) :
    (∀ q ∈ argPaths op, isDescendant srv.root_path (_resolve_path srv.root_path q)) ∨
    ((runFs srv st op).res = .error (.valueError "Access denied") ∧
     (runFs srv st op).st = st ∧ (runFs srv st op).io = []) := by
  cases op with
  | read path =>
    by_cases hdesc : isDescendant srv.root_path (_resolve_path srv.root_path path)
    · left
      intro q hq
      simp only [argPaths, List.mem_singleton] at hq
      exact hq ▸ hdesc
    · right
      have hne := hargs path (by simp [argPaths])
      simp [runFs, read_file, hne, validate_err_of_not_desc _ _ hdesc]
  | write path content overwrite =>
    by_cases hdesc : isDescendant srv.root_path (_resolve_path srv.root_path path)
    · left
      intro q hq
      simp only [argPaths, List.mem_singleton] at hq
      exact hq ▸ hdesc
    · right
      have hne := hargs path (by simp [argPaths])
      simp [runFs, write_file, hne, validate_err_of_not_desc _ _ hdesc]
  | list path ih rec =>
    by_cases hdesc : isDescendant srv.root_path (_resolve_path srv.root_path path)
    · left
      intro q hq
      simp only [argPaths, List.mem_singleton] at hq
      exact hq ▸ hdesc
    · right
      simp [runFs, list_directory, validate_err_of_not_desc _ _ hdesc]
  | search path pat cs ft =>
    by_cases hdesc : isDescendant srv.root_path (_resolve_path srv.root_path path)
    · left
      intro q hq
      simp only [argPaths, List.mem_singleton] at hq
      exact hq ▸ hdesc
    · right
      simp [runFs, search_files, validate_err_of_not_desc _ _ hdesc]
  | createDirectory path =>
    by_cases hdesc : isDescendant srv.root_path (_resolve_path srv.root_path path)
    · left
      intro q hq
      simp only [argPaths, List.mem_singleton] at hq
      exact hq ▸ hdesc
    · right
      have hne := hargs path (by simp [argPaths])
      simp [runFs, create_directory, hne, validate_err_of_not_desc _ _ hdesc]
  | delete path =>
    by_cases hdesc : isDescendant srv.root_path (_resolve_path srv.root_path path)
    · left
      intro q hq
      simp only [argPaths, List.mem_singleton] at hq
      exact hq ▸ hdesc
    · right
      have hne := hargs path (by simp [argPaths])
      simp [runFs, delete_file, hne, validate_err_of_not_desc _ _ hdesc]
  | copy s d =>
    have hnes := hargs s (by simp [argPaths])
    have hned := hargs d (by simp [argPaths])
    by_cases hs : isDescendant srv.root_path (_resolve_path srv.root_path s)
    · by_cases hd : isDescendant srv.root_path (_resolve_path srv.root_path d)
      · left
        intro q hq
        simp only [argPaths, List.mem_cons, List.not_mem_nil, or_false] at hq
        rcases hq with rfl | rfl
        · exact hs
        · exact hd
      · right
        simp [runFs, copy_file, hnes, hned, validate_ok_of_desc _ _ hs,
          validate_err_of_not_desc _ _ hd]
    · right
      simp [runFs, copy_file, hnes, hned, validate_err_of_not_desc _ _ hs]
  | move s d =>
    have hnes := hargs s (by simp [argPaths])
    have hned := hargs d (by simp [argPaths])
    by_cases hs : isDescendant srv.root_path (_resolve_path srv.root_path s)
    · by_cases hd : isDescendant srv.root_path (_resolve_path srv.root_path d)
      · left
        intro q hq
        simp only [argPaths, List.mem_cons, List.not_mem_nil, or_false] at hq
        rcases hq with rfl | rfl
        · exact hs
        · exact hd
      · right
        simp [runFs, move_file, hnes, hned, validate_ok_of_desc _ _ hs,
          validate_err_of_not_desc _ _ hd]
    · right
      simp [runFs, move_file, hnes, hned, validate_err_of_not_desc _ _ hs]
  | getInfo path =>
    by_cases hdesc : isDescendant srv.root_path (_resolve_path srv.root_path path)
    · left
      intro q hq
      simp only [argPaths, List.mem_singleton] at hq
      exact hq ▸ hdesc
    · right
      have hne := hargs path (by simp [argPaths])
      simp [runFs, get_file_info, hne, validate_err_of_not_desc _ _ hdesc]

/-- C1 witness: the escape attempt `../../etc/passwd` against the
`/sandbox` root is denied with no I/O, and all the operation's path
arguments are nonempty. -/
theorem c1_path_containment_witness :
    (∀ q ∈ argPaths (FsOp.read "../../etc/passwd".toList), ¬ q = []) ∧
    ((∀ q ∈ argPaths (FsOp.read "../../etc/passwd".toList),
        isDescendant sbRoot (_resolve_path sbRoot q)) ∨
     ((runFs sbSrv sbSt (FsOp.read "../../etc/passwd".toList)).res =
        .error (.valueError "Access denied") ∧
      (runFs sbSrv sbSt (FsOp.read "../../etc/passwd".toList)).st = sbSt ∧
      (runFs sbSrv sbSt (FsOp.read "../../etc/passwd".toList)).io = [])) :=
  ⟨by decide, c1_path_containment sbSrv sbSt (FsOp.read "../../etc/passwd".toList) (by decide)⟩


theorem lookup_fsSetFile (fs : List (Comps × Str)) (c : Comps) (v : Str) :
    (fsSetFile fs c v).lookup c = some v := by
  unfold fsSetFile
  induction fs with
  | nil => simp [List.lookup]
  | cons e fs ih =>
    obtain ⟨k, w⟩ := e
    by_cases he : k = c
    · simpa [List.filter_cons, he] using ih
    · have hck : (c == k) = false := by
        simp only [beq_eq_false_iff_ne, ne_eq]
        exact fun h2 => he h2.symm
      simp only [List.filter_cons]
      rw [decide_eq_true (by simpa using he)]
      simpa [List.cons_append, List.lookup, hck] using ih

theorem not_mem_ancestorsOf (c : Comps) : ¬ c ∈ ancestorsOf c := by
  unfold ancestorsOf
  simp only [List.mem_map, List.mem_range]
  rintro ⟨i, hi, he⟩
  have hlen := congrArg List.length he
  simp only [List.length_take] at hlen
  omega

/-- C8 counterexample: with `/sandbox/a.txt` already holding `old`,
`write_file("a.txt", "new")` (the default `overwrite=False`) raises
`FileExistsError`, and the subsequent `read_file("a.txt")` returns `old`,
not `new`. -/
theorem c8_counterexample :
    (write_file sbSrv sbSt "a.txt".toList "new".toList false).res =
      .error (.fileExistsError "File already exists") ∧
    (write_file sbSrv sbSt "a.txt".toList "new".toList false).st = sbSt ∧
    (read_file sbSrv (write_file sbSrv sbSt "a.txt".toList "new".toList false).st
       "a.txt".toList).res = .ok (.readRes "old".toList 3) ∧
    ¬ ("old".toList = "new".toList) := by decide

/-- C8 (amended): for every path resolving inside the root at which no
file or directory already exists (or with `overwrite = true` at a
non-directory path), whose ancestors are not regular files, and every
content whose UTF-8 byte size is at most `max_file_size`, calling
`write_file(path, content)` and then `read_file(path)` succeeds and
returns exactly `content`. -/
theorem c8_amended_roundtrip (srv : FsServer) (st : FsState) (path content : Str)
    (overwrite : Bool)
    (hne : ¬ path = [])
    (hdesc : isDescendant srv.root_path (_resolve_path srv.root_path path))
    (hexist : existsAt st (canonParts (_resolve_path srv.root_path path).parts) = false ∨
              overwrite = true)
    (hdir : isDirAt st (canonParts (_resolve_path srv.root_path path).parts) = false)
    (hanc : ∀ a ∈ ancestorsOf (canonParts (_resolve_path srv.root_path path).parts),
        isFileAt st a = false)
    (hsize : utf8Len content ≤ srv.max_file_size) :
    (write_file srv st path content overwrite).res = .ok (.writeRes content.length) ∧
    (read_file srv (write_file srv st path content overwrite).st path).res =
      .ok (.readRes content (utf8Len content)) := by
  have hval := validate_ok_of_desc _ _ hdesc
  have hcond : ¬ (existsAt st (canonParts (_resolve_path srv.root_path path).parts) = true ∧
      ¬ overwrite = true) := by
    rcases hexist with h | h
    · intro hx
      rw [h] at hx
      exact Bool.false_ne_true hx.1
    · intro hx
      exact hx.2 h
  have hancany : ((ancestorsOf (canonParts (_resolve_path srv.root_path path).parts)).any
      (fun a => isFileAt st a)) = false := by
    rw [List.any_eq_false]
    intro a ha
    simp [hanc a ha]
  have hwrite :
      write_file srv st path content overwrite =
        ⟨.ok (.writeRes content.length),
         { (addDirs st (ancestorsOf (canonParts (_resolve_path srv.root_path path).parts))) with
             files := fsSetFile st.files (canonParts (_resolve_path srv.root_path path).parts)
               content },
         [canonParts (_resolve_path srv.root_path path).parts]⟩ := by
    simp only [write_file, hval]
    rw [if_neg hne, if_neg hcond, if_neg (by simp [hancany]), if_neg (by simp [hdir])]
  have hlookup : ((write_file srv st path content overwrite).st.files.lookup
      (canonParts (_resolve_path srv.root_path path).parts)) = some content := by
    rw [hwrite]
    exact lookup_fsSetFile _ _ _
  have hfile2 : isFileAt (write_file srv st path content overwrite).st
      (canonParts (_resolve_path srv.root_path path).parts) = true := by
    simp [isFileAt, hlookup]
  have hex2 : existsAt (write_file srv st path content overwrite).st
      (canonParts (_resolve_path srv.root_path path).parts) = true := by
    simp [existsAt, hfile2]
  refine ⟨by rw [hwrite], ?_⟩
  simp only [read_file, hval]
  rw [if_neg hne, if_neg (by simp [hex2]), if_neg (by simp [hfile2])]
  rw [hlookup]
  simp only [Option.getD_some]
  rw [if_neg (by omega)]

/-- C8 witness: writing `hello` at a fresh `notes.txt` in the empty
sandbox and reading it back returns exactly `hello`. -/
theorem c8_amended_roundtrip_witness :
    (¬ "notes.txt".toList = ([] : Str)) ∧
    isDescendant sbRoot (_resolve_path sbRoot "notes.txt".toList) ∧
    (write_file sbSrv sbEmpty "notes.txt".toList "hello".toList false).res =
      .ok (.writeRes 5) ∧
    (read_file sbSrv (write_file sbSrv sbEmpty "notes.txt".toList "hello".toList false).st
       "notes.txt".toList).res = .ok (.readRes "hello".toList 5) := by
  have h := c8_amended_roundtrip sbSrv sbEmpty "notes.txt".toList "hello".toList false
    (by decide) (by decide) (Or.inl (by decide)) (by decide) (by decide) (by decide)
  exact ⟨by decide, by decide, h.1, h.2⟩

/-- C4: evaluating `execute_command` at the failing input
(`sleep` allowlisted, `execute("sleep 10", timeout=1)`, child exceeding
the timeout). The call returns a normal result with `timed_out = true`
and `success = false` and the registry entry is gone — but the inner
`finally` removed the registry entry before the `except
asyncio.TimeoutError` handler ran, so the handler's
`if process_id in self.running_processes` guard is false and
`process.terminate()` is never called: the child (pid 7) is still
live, i.e. orphaned, contradicting the claim and the spec's intent. -/
theorem c4_timeout_orphans_child :
    ((execute_command sleepSrv ⟨7, []⟩ "sleep 10".toList 1 42 .timesOut).res.toOption.map
        (fun r => (r.timed_out, r.success))) = some (true, false) ∧
    (execute_command sleepSrv ⟨7, []⟩ "sleep 10".toList 1 42
        .timesOut).st.running_processes = [] ∧
    (execute_command sleepSrv ⟨7, []⟩ "sleep 10".toList 1 42 .timesOut).spawned = true ∧
    (execute_command sleepSrv ⟨7, []⟩ "sleep 10".toList 1 42
        .timesOut).terminatedChild = false ∧
    (execute_command sleepSrv ⟨7, []⟩ "sleep 10".toList 1 42 .timesOut).os.live = [7] := by
  decide

theorem regSet_fresh (tbl : List (ProcId × Nat)) (id : ProcId) (pid : Nat)
    (h : tbl.lookup id = none) : regSet tbl id pid = tbl ++ [(id, pid)] := by
  unfold regSet
  rw [h]
  simp

theorem keys_ne_of_lookup_none (id : ProcId) (tbl : List (ProcId × Nat)) :
    tbl.lookup id = none → ∀ e ∈ tbl, ¬ e.1 = id := by
  induction tbl with
  | nil =>
    intro _ e he
    simp at he
  | cons f tbl ih =>
    obtain ⟨k, w⟩ := f
    intro h e he
    cases hik : (id == k) with
    | true => simp [List.lookup, hik] at h
    | false =>
      simp only [List.lookup, hik] at h
      rcases List.mem_cons.mp he with rfl | hmem
      · intro hk
        have hne : ¬ id = k := by simpa using hik
        exact hne (by simpa using hk.symm)
      · exact ih h e hmem

theorem regDel_of_lookup_none (tbl : List (ProcId × Nat)) (id : ProcId)
    (h : tbl.lookup id = none) : regDel tbl id = tbl := by
  unfold regDel
  rw [List.filter_eq_self]
  intro a ha
  simpa using keys_ne_of_lookup_none id tbl h a ha

theorem regDel_append_fresh (tbl : List (ProcId × Nat)) (id : ProcId) (pid : Nat)
    (h : tbl.lookup id = none) : regDel (tbl ++ [(id, pid)]) id = tbl := by
  unfold regDel
  rw [List.filter_append]
  have h1 := regDel_of_lookup_none tbl id h
  unfold regDel at h1
  rw [h1]
  simp

theorem lookup_regDel (tbl : List (ProcId × Nat)) (id : ProcId) :
    (regDel tbl id).lookup id = none := by
  unfold regDel
  induction tbl with
  | nil => simp [List.lookup]
  | cons f tbl ih =>
    obtain ⟨k, w⟩ := f
    by_cases hk : k = id
    · simpa [List.filter_cons, hk] using ih
    · simp only [List.filter_cons]
      rw [decide_eq_true (by simpa using hk)]
      have hik : (id == k) = false := by
        simp only [beq_eq_false_iff_ne, ne_eq]
        exact fun h2 => hk h2.symm
      simpa [List.lookup, hik] using ih

theorem mem_of_lookup_eq_some (tbl : List (ProcId × Nat)) (id : ProcId) (pid : Nat) :
    tbl.lookup id = some pid → (id, pid) ∈ tbl := by
  induction tbl with
  | nil => intro h; simp [List.lookup] at h
  | cons f tbl ih =>
    obtain ⟨k, w⟩ := f
    intro h
    cases hik : (id == k) with
    | true =>
      simp only [List.lookup, hik] at h
      have hid : id = k := by simpa using hik
      cases h
      simp [hid]
    | false =>
      simp only [List.lookup, hik] at h
      exact List.mem_cons_of_mem _ (ih h)

theorem exec_completes_projs (st : TerminalServer) (os : Os) (cmd : Str)
    (timeout now : Nat) (ec : Int) (out err : Str)
    (hcmd : ¬ cmd = []) (hv : validate_command st.allowed_commands cmd = .ok ())
    (hfresh : st.running_processes.lookup (now, st.running_processes.length) = none)
    (hlive : ∀ q ∈ os.live, ¬ q = os.nextPid) :
    (execute_command st os cmd timeout now (.completes ec out err)).st.running_processes =
        st.running_processes ∧
    (execute_command st os cmd timeout now (.completes ec out err)).os =
        ⟨os.nextPid + 1, os.live⟩ := by
  have hfl : (os.live ++ [os.nextPid]).filter (fun q => ¬ q = os.nextPid) = os.live := by
    rw [List.filter_append, List.filter_eq_self.mpr (fun a ha => by simpa using hlive a ha)]
    simp
  constructor
  · simp only [execute_command]
    rw [if_neg hcmd, hv]
    simp only [regSet_fresh _ _ _ hfresh]
    simp [terminalAddToHistory, regDel_append_fresh _ _ _ hfresh]
  · simp only [execute_command]
    rw [if_neg hcmd, hv]
    simp [hfl]
    intro a ha
    exact hlive a ha

theorem exec_timesOut_projs (st : TerminalServer) (os : Os) (cmd : Str)
    (timeout now : Nat)
    (hcmd : ¬ cmd = []) (hv : validate_command st.allowed_commands cmd = .ok ())
    (hfresh : st.running_processes.lookup (now, st.running_processes.length) = none) :
    (execute_command st os cmd timeout now .timesOut).st.running_processes =
        st.running_processes ∧
    (execute_command st os cmd timeout now .timesOut).os =
        ⟨os.nextPid + 1, os.live ++ [os.nextPid]⟩ := by
  have hcond : ((regDel (regSet st.running_processes (now, st.running_processes.length)
      os.nextPid) (now, st.running_processes.length)).lookup
        (now, st.running_processes.length)).isSome = false := by
    rw [regSet_fresh _ _ _ hfresh, regDel_append_fresh _ _ _ hfresh, hfresh]
    rfl
  constructor
  · simp only [execute_command]
    rw [if_neg hcmd, hv]
    simp only [regSet_fresh _ _ _ hfresh]
    simp [regDel_append_fresh _ _ _ hfresh, hfresh]
  · simp only [execute_command]
    rw [if_neg hcmd, hv]
    simp [regSet_fresh _ _ _ hfresh, regDel_append_fresh _ _ _ hfresh, hfresh]

theorem exec_unchanged_of_empty (st : TerminalServer) (os : Os) (cmd : Str)
    (timeout now : Nat) (outcome : ExecOutcome) (hcmd : cmd = []) :
    (execute_command st os cmd timeout now outcome).st = st ∧
    (execute_command st os cmd timeout now outcome).os = os := by
  simp [execute_command, hcmd]

theorem exec_unchanged_of_invalid (st : TerminalServer) (os : Os) (cmd : Str)
    (timeout now : Nat) (outcome : ExecOutcome) (e : PyErr)
    (hv : validate_command st.allowed_commands cmd = .error e) :
    (execute_command st os cmd timeout now outcome).st = st ∧
    (execute_command st os cmd timeout now outcome).os = os := by
  by_cases hcmd : cmd = [] <;> simp [execute_command, hcmd, hv]

theorem exec_unchanged_of_spawnFails (st : TerminalServer) (os : Os) (cmd : Str)
    (timeout now : Nat) (msg : String) :
    (execute_command st os cmd timeout now (.spawnFails msg)).st = st ∧
    (execute_command st os cmd timeout now (.spawnFails msg)).os = os := by
  by_cases hcmd : cmd = []
  · simp [execute_command, hcmd]
  · cases hv : validate_command st.allowed_commands cmd <;>
      simp [execute_command, hcmd, hv]

/-- C7: the live-process table never retains an entry for a finished
process. Under the registry invariant (distinct ids, distinct pids,
every registered pid live) and a fresh process id, any `execute_command`
call returns with the table exactly as before the call — in particular
the call's own id is absent, on normal completion and on timeout alike —
and preserves the invariant; and after `kill_process(id)` returns, `id`
is absent from the table and the invariant is preserved. -/
theorem c7_process_table (st : TerminalServer) (os : Os) (cmd : Str)
    (timeout now : Nat) (outcome : ExecOutcome) (id : ProcId)
    (hinv : RegInv st os)
    (hfresh : st.running_processes.lookup (now, st.running_processes.length) = none) :
    ((execute_command st os cmd timeout now outcome).st.running_processes =
        st.running_processes ∧
     (execute_command st os cmd timeout now outcome).st.running_processes.lookup
        (now, st.running_processes.length) = none ∧
     RegInv (execute_command st os cmd timeout now outcome).st
       (execute_command st os cmd timeout now outcome).os) ∧
    ((kill_process st os id).st.running_processes.lookup id = none ∧
     RegInv (kill_process st os id).st (kill_process st os id).os) := by
  obtain ⟨hnk, hnp, hmem, hbound⟩ := hinv
  have hlive : ∀ q ∈ os.live, ¬ q = os.nextPid :=
    fun q hq => Nat.ne_of_lt (hbound q hq)
  constructor
  · by_cases hcmd : cmd = []
    · obtain ⟨h1, h2⟩ := exec_unchanged_of_empty st os cmd timeout now outcome hcmd
      rw [h1, h2]
      exact ⟨rfl, hfresh, hnk, hnp, hmem, hbound⟩
    · cases hv : validate_command st.allowed_commands cmd with
      | error e =>
        obtain ⟨h1, h2⟩ := exec_unchanged_of_invalid st os cmd timeout now outcome e hv
        rw [h1, h2]
        exact ⟨rfl, hfresh, hnk, hnp, hmem, hbound⟩
      | ok u =>
        cases u
        cases outcome with
        | spawnFails msg =>
          obtain ⟨h1, h2⟩ := exec_unchanged_of_spawnFails st os cmd timeout now msg
          rw [h1, h2]
          exact ⟨rfl, hfresh, hnk, hnp, hmem, hbound⟩
        | completes ec out err =>
          obtain ⟨h1, h2⟩ :=
            exec_completes_projs st os cmd timeout now ec out err hcmd hv hfresh hlive
          unfold RegInv
          rw [h1, h2]
          refine ⟨rfl, hfresh, hnk, hnp, hmem, ?_⟩
          intro p hp
          exact Nat.lt_succ_of_lt (hbound p hp)
        | timesOut =>
          obtain ⟨h1, h2⟩ := exec_timesOut_projs st os cmd timeout now hcmd hv hfresh
          unfold RegInv
          rw [h1, h2]
          refine ⟨rfl, hfresh, hnk, hnp, ?_, ?_⟩
          · intro e he
            exact List.mem_append_left _ (hmem e he)
          · intro p hp
            show p < os.nextPid + 1
            rcases List.mem_append.mp hp with h | h
            · exact Nat.lt_succ_of_lt (hbound p h)
            · simp only [List.mem_singleton] at h
              omega
  · cases hlk : st.running_processes.lookup id with
    | none =>
      constructor
      · simp [kill_process, hlk]
      · simp only [kill_process, hlk]
        exact ⟨hnk, hnp, hmem, hbound⟩
    | some pid =>
      have hidmem : (id, pid) ∈ st.running_processes :=
        mem_of_lookup_eq_some st.running_processes id pid hlk
      constructor
      · simp only [kill_process, hlk]
        exact lookup_regDel st.running_processes id
      · simp only [kill_process, hlk]
        have hsub : List.Sublist (regDel st.running_processes id) st.running_processes :=
          List.filter_sublist _
        refine ⟨(hsub.map Prod.fst).nodup hnk, (hsub.map Prod.snd).nodup hnp, ?_, ?_⟩
        · intro e he
          have he2 := List.mem_filter.mp he
          have hepid : ¬ e.2 = pid := by
            intro heq
            have := List.inj_on_of_nodup_map hnp he2.1 hidmem (by simpa using heq)
            rw [this] at he2
            simpa using he2.2
          simp only [List.mem_filter]
          exact ⟨hmem e he2.1, by simpa using hepid⟩
        · intro p hp
          exact hbound p (List.mem_of_mem_filter hp)

/-- C7 witness: a concrete invariant-satisfying state, one timed-out
execute and one kill. -/
theorem c7_process_table_witness :
    RegInv sleepSrv ⟨7, []⟩ ∧
    (sleepSrv.running_processes.lookup (42, sleepSrv.running_processes.length) = none) ∧
    ((execute_command sleepSrv ⟨7, []⟩ "sleep 10".toList 1 42
        .timesOut).st.running_processes = sleepSrv.running_processes ∧
     (kill_process sleepSrv ⟨7, []⟩ (42, 0)).st.running_processes.lookup (42, 0) = none) := by
  have hinv : RegInv sleepSrv ⟨7, []⟩ := by
    refine ⟨by decide, by decide, ?_, ?_⟩ <;> simp [sleepSrv]
  have h := c7_process_table sleepSrv ⟨7, []⟩ "sleep 10".toList 1 42 .timesOut (42, 0)
    hinv (by decide)
  exact ⟨hinv, by decide, h.1.1, h.2.1⟩

theorem joinSp_append_single (A : List Str) (x : Str) :
    joinSp (A ++ [x]) = joinSp A ++ (if A = [] then x else ' ' :: x) := by
  induction A with
  | nil => simp [joinSp]
  | cons a A ih =>
    cases A with
    | nil => simp [joinSp]
    | cons b B =>
      have ih2 : joinSp (b :: (B ++ [x])) = joinSp (b :: B) ++ ' ' :: x := by
        simpa using ih
      calc joinSp ((a :: b :: B) ++ [x])
          = a ++ ' ' :: joinSp (b :: (B ++ [x])) := rfl
        _ = a ++ ' ' :: (joinSp (b :: B) ++ ' ' :: x) := by rw [ih2]
        _ = (a ++ ' ' :: joinSp (b :: B)) ++ ' ' :: x := by simp
        _ = joinSp (a :: b :: B) ++ (if (a :: b :: B : List Str) = [] then x else ' ' :: x) := by
            simp [joinSp]

theorem joinSp_extend (A : List Str) (t y : Str) :
    joinSp (A ++ [t ++ y]) = joinSp (A ++ [t]) ++ y := by
  rw [joinSp_append_single, joinSp_append_single]
  by_cases h : A = [] <;> simp [h]

theorem flat_push (outs : List Str) (cur : Option Str) (y : Str) :
    ∃ j, joinSp (outs ++ [cur.getD [] ++ y]) = joinSp (outs ++ cur.toList) ++ j ++ y := by
  cases cur with
  | none =>
    by_cases h : outs = []
    · exact ⟨[], by simp [h, joinSp_append_single, joinSp]⟩
    · refine ⟨[' '], ?_⟩
      rw [Option.getD_none, List.nil_append, joinSp_append_single, if_neg h]
      simp
  | some t =>
    exact ⟨[], by simpa using joinSp_extend outs t y⟩

theorem shFlat_step_mono (s : ShState) (c : Char) :
    ∃ d, shFlat (shStep s c) = shFlat s ++ d := by
  obtain ⟨m, cur, outs⟩ := s
  have hpush : ∀ y : Str, ∃ d,
      joinSp (outs ++ [cur.getD [] ++ y]) = joinSp (outs ++ cur.toList) ++ d := by
    intro y
    obtain ⟨j, hj⟩ := flat_push outs cur y
    exact ⟨j ++ y, by rw [hj, List.append_assoc]⟩
  have hnew : ∃ d, joinSp (outs ++ [cur.getD []]) = joinSp (outs ++ cur.toList) ++ d := by
    have := hpush []
    simpa using this
  cases m with
  | norm =>
    by_cases hws : shWs c = true
    · cases cur with
      | none => exact ⟨[], by simp [shStep, shFlat, hws]⟩
      | some t => exact ⟨[], by simp [shStep, shFlat, hws]⟩
    · by_cases hq : c = '\''
      · obtain ⟨d, hd⟩ := hnew
        exact ⟨d, by simpa [shStep, shFlat, hws, hq] using hd⟩
      · by_cases hqq : c = '"'
        · obtain ⟨d, hd⟩ := hnew
          exact ⟨d, by simpa [shStep, shFlat, hws, hq, hqq] using hd⟩
        · by_cases hbs : c = '\\'
          · obtain ⟨d, hd⟩ := hnew
            exact ⟨d, by simpa [shStep, shFlat, hws, hq, hqq, hbs] using hd⟩
          · obtain ⟨d, hd⟩ := hpush [c]
            exact ⟨d, by simpa [shStep, shFlat, hws, hq, hqq, hbs] using hd⟩
  | quoteS =>
    by_cases hq : c = '\''
    · exact ⟨[], by simp [shStep, shFlat, hq]⟩
    · obtain ⟨d, hd⟩ := hpush [c]
      exact ⟨d, by simpa [shStep, shFlat, hq] using hd⟩
  | quoteD =>
    by_cases hq : c = '"'
    · exact ⟨[], by simp [shStep, shFlat, hq]⟩
    · by_cases hbs : c = '\\'
      · exact ⟨[], by simp [shStep, shFlat, hq, hbs]⟩
      · obtain ⟨d, hd⟩ := hpush [c]
        exact ⟨d, by simpa [shStep, shFlat, hq, hbs] using hd⟩
  | escNorm =>
    obtain ⟨d, hd⟩ := hpush [c]
    exact ⟨d, by simpa [shStep, shFlat] using hd⟩
  | escQuoteD =>
    by_cases hc : c = '"' ∨ c = '\\'
    · obtain ⟨d, hd⟩ := hpush [c]
      exact ⟨d, by simpa [shStep, shFlat, hc] using hd⟩
    · obtain ⟨d, hd⟩ := hpush ['\\', c]
      exact ⟨d, by simpa [shStep, shFlat, hc] using hd⟩

theorem shRun_mono (w : Str) : ∀ s : ShState, ∃ d, shFlat (shRun s w) = shFlat s ++ d := by
  induction w with
  | nil => exact fun s => ⟨[], by simp [shRun]⟩
  | cons c w ih =>
    intro s
    obtain ⟨d1, hd1⟩ := shFlat_step_mono s c
    obtain ⟨d2, hd2⟩ := ih (shStep s c)
    refine ⟨d1 ++ d2, ?_⟩
    have : shRun s (c :: w) = shRun (shStep s c) w := by
      simp [shRun]
    rw [this, hd2, hd1, List.append_assoc]

theorem ordinary_facts (c : Char) (hc : ordinaryChar c = true) (hcsp : ¬ c = ' ') :
    shWs c = false ∧ ¬ c = '\'' ∧ ¬ c = '"' ∧ ¬ c = '\\' := by
  simp only [ordinaryChar, decide_eq_true_eq] at hc
  push_neg at hc
  obtain ⟨h1, h2, h3, h4, h5, h6⟩ := hc
  refine ⟨?_, h1, h2, h3⟩
  simp [shWs, hcsp, h4, h5, h6]

theorem flat_W_push (outs : List Str) (t y : Str) (m : ShMode) :
    shFlat ⟨m, some (t ++ y), outs⟩ = shFlat ⟨m, some t, outs⟩ ++ y := by
  simpa [shFlat] using joinSp_extend outs t y

theorem shRun_cons (s : ShState) (c : Char) (w : Str) :
    shRun s (c :: w) = shRun (shStep s c) w := rfl

theorem shStep_ordinary (s : ShState) (c : Char) (hc : ordinaryChar c = true)
    (hcsp : ¬ c = ' ') :
    (∃ j, shFlat (shStep s c) = shFlat s ++ j ++ [c]) ∧ Wst (shStep s c) := by
  obtain ⟨hws, hq, hqq, hbs⟩ := ordinary_facts c hc hcsp
  obtain ⟨m, cur, outs⟩ := s
  cases m with
  | norm =>
    have hstep : shStep ⟨.norm, cur, outs⟩ c = ⟨.norm, some (cur.getD [] ++ [c]), outs⟩ := by
      simp [shStep, hws, hq, hqq, hbs]
    rw [hstep]
    refine ⟨?_, Or.inl rfl, cur.getD [] ++ [c], rfl, by simp⟩
    obtain ⟨j, hj⟩ := flat_push outs cur [c]
    exact ⟨j, by simpa [shFlat] using hj⟩
  | quoteS =>
    have hstep : shStep ⟨.quoteS, cur, outs⟩ c =
        ⟨.quoteS, some (cur.getD [] ++ [c]), outs⟩ := by
      simp [shStep, hq]
    rw [hstep]
    refine ⟨?_, Or.inr (Or.inl rfl), cur.getD [] ++ [c], rfl, by simp⟩
    obtain ⟨j, hj⟩ := flat_push outs cur [c]
    exact ⟨j, by simpa [shFlat] using hj⟩
  | quoteD =>
    have hstep : shStep ⟨.quoteD, cur, outs⟩ c =
        ⟨.quoteD, some (cur.getD [] ++ [c]), outs⟩ := by
      simp [shStep, hqq, hbs]
    rw [hstep]
    refine ⟨?_, Or.inr (Or.inr rfl), cur.getD [] ++ [c], rfl, by simp⟩
    obtain ⟨j, hj⟩ := flat_push outs cur [c]
    exact ⟨j, by simpa [shFlat] using hj⟩
  | escNorm =>
    have hstep : shStep ⟨.escNorm, cur, outs⟩ c =
        ⟨.norm, some (cur.getD [] ++ [c]), outs⟩ := by
      simp [shStep]
    rw [hstep]
    refine ⟨?_, Or.inl rfl, cur.getD [] ++ [c], rfl, by simp⟩
    obtain ⟨j, hj⟩ := flat_push outs cur [c]
    exact ⟨j, by simpa [shFlat] using hj⟩
  | escQuoteD =>
    have hstep : shStep ⟨.escQuoteD, cur, outs⟩ c =
        ⟨.quoteD, some (cur.getD [] ++ ['\\', c]), outs⟩ := by
      simp [shStep, hqq, hbs]
    rw [hstep]
    refine ⟨?_, Or.inr (Or.inr rfl), cur.getD [] ++ ['\\', c], rfl, by simp⟩
    obtain ⟨j, hj⟩ := flat_push outs cur ['\\', c]
    refine ⟨j ++ ['\\'], ?_⟩
    have h2 : (['\\', c] : Str) = ['\\'] ++ [c] := rfl
    rw [h2] at hj
    simpa [shFlat, List.append_assoc] using hj

theorem shStep_ordinary_W (s : ShState) (c : Char) (hW : Wst s)
    (hc : ordinaryChar c = true) (hcsp : ¬ c = ' ') :
    shFlat (shStep s c) = shFlat s ++ [c] ∧ Wst (shStep s c) := by
  obtain ⟨hm, t, hcur, htne⟩ := hW
  obtain ⟨hws, hq, hqq, hbs⟩ := ordinary_facts c hc hcsp
  obtain ⟨m, cur, outs⟩ := s
  simp only at hcur
  subst hcur
  rcases hm with h | h | h <;> simp only at h <;> subst h
  · have hstep : shStep ⟨.norm, some t, outs⟩ c = ⟨.norm, some (t ++ [c]), outs⟩ := by
      simp [shStep, hws, hq, hqq, hbs]
    rw [hstep]
    exact ⟨flat_W_push outs t [c] _, Or.inl rfl, t ++ [c], rfl, by simp⟩
  · have hstep : shStep ⟨.quoteS, some t, outs⟩ c = ⟨.quoteS, some (t ++ [c]), outs⟩ := by
      simp [shStep, hq]
    rw [hstep]
    exact ⟨flat_W_push outs t [c] _, Or.inr (Or.inl rfl), t ++ [c], rfl, by simp⟩
  · have hstep : shStep ⟨.quoteD, some t, outs⟩ c = ⟨.quoteD, some (t ++ [c]), outs⟩ := by
      simp [shStep, hqq, hbs]
    rw [hstep]
    exact ⟨flat_W_push outs t [c] _, Or.inr (Or.inr rfl), t ++ [c], rfl, by simp⟩

theorem shStep_space (s : ShState) (hW : Wst s) :
    (shFlat (shStep s ' ') = shFlat s ++ [' '] ∧ Wst (shStep s ' ')) ∨
    (shFlat (shStep s ' ') = shFlat s ∧ (shStep s ' ').mode = .norm ∧
     (shStep s ' ').cur = none ∧ ¬ (shStep s ' ').outs = []) := by
  obtain ⟨hm, t, hcur, htne⟩ := hW
  obtain ⟨m, cur, outs⟩ := s
  simp only at hcur
  subst hcur
  rcases hm with h | h | h <;> simp only at h <;> subst h
  · right
    have hstep : shStep ⟨.norm, some t, outs⟩ ' ' = ⟨.norm, none, outs ++ [t]⟩ := by
      simp [shStep, shWs]
    rw [hstep]
    exact ⟨by simp [shFlat], rfl, rfl, by simp⟩
  · left
    have hstep : shStep ⟨.quoteS, some t, outs⟩ ' ' = ⟨.quoteS, some (t ++ [' ']), outs⟩ := by
      simp [shStep]
    rw [hstep]
    exact ⟨flat_W_push outs t [' '] _, Or.inr (Or.inl rfl), t ++ [' '], rfl, by simp⟩
  · left
    have hstep : shStep ⟨.quoteD, some t, outs⟩ ' ' = ⟨.quoteD, some (t ++ [' ']), outs⟩ := by
      simp [shStep]
    rw [hstep]
    exact ⟨flat_W_push outs t [' '] _, Or.inr (Or.inr rfl), t ++ [' '], rfl, by simp⟩

theorem shStep_resume (outs : List Str) (c : Char) (houts : ¬ outs = [])
    (hc : ordinaryChar c = true) (hcsp : ¬ c = ' ') :
    shFlat (shStep ⟨.norm, none, outs⟩ c) = shFlat ⟨.norm, none, outs⟩ ++ [' '] ++ [c] ∧
    Wst (shStep ⟨.norm, none, outs⟩ c) := by
  obtain ⟨hws, hq, hqq, hbs⟩ := ordinary_facts c hc hcsp
  have hstep : shStep ⟨.norm, none, outs⟩ c = ⟨.norm, some [c], outs⟩ := by
    simp [shStep, hws, hq, hqq, hbs]
  rw [hstep]
  constructor
  · simp only [shFlat, Option.toList_some, Option.toList_none, List.append_nil]
    rw [joinSp_append_single, if_neg houts]
    simp
  · exact ⟨Or.inl rfl, [c], rfl, by simp⟩

theorem getLast?_eq_some_getLastD (a : Char) (l : Str) (d : Char) :
    (a :: l).getLast? = some ((a :: l).getLastD d) := by
  simp [List.getLast?, List.getLastD]

theorem shRun_mid (p : Str) :
    ∀ s : ShState, p.all ordinaryChar = true → ¬ ([' ', ' '] <:+: p) →
      ¬ p.getLast? = some ' ' →
      ((Wst s → shFlat (shRun s p) = shFlat s ++ p ∧ Wst (shRun s p)) ∧
       ((s.mode = .norm ∧ s.cur = none ∧ ¬ s.outs = []) → ¬ p = [] →
         ¬ p.headD 'x' = ' ' →
         shFlat (shRun s p) = shFlat s ++ [' '] ++ p ∧ Wst (shRun s p))) := by
  induction p with
  | nil =>
    intro s _ _ _
    exact ⟨fun hW => ⟨by simp [shRun], hW⟩, fun _ hne _ => absurd rfl hne⟩
  | cons c rest ih =>
    intro s hall hnd hlast
    rw [List.all_cons, Bool.and_eq_true] at hall
    obtain ⟨hcord, hall2⟩ := hall
    have hnd2 : ¬ ([' ', ' '] <:+: rest) := fun h => hnd (List.infix_cons_iff.mpr (Or.inr h))
    have hlast2 : ¬ rest.getLast? = some ' ' := by
      cases rest with
      | nil => simp
      | cons d rest2 =>
        rw [List.getLast?_cons_cons] at hlast
        exact hlast
    constructor
    · intro hW
      by_cases hc : c = ' '
      · subst hc
        have hrne : ¬ rest = [] := by
          intro h
          subst h
          exact hlast (by simp)
        rcases shStep_space s hW with ⟨hf, hw2⟩ | ⟨hf, hm2, hcur2, houts2⟩
        · obtain ⟨hf2, hw3⟩ := (ih (shStep s ' ') hall2 hnd2 hlast2).1 hw2
          rw [shRun_cons]
          refine ⟨?_, hw3⟩
          rw [hf2, hf]
          simp
        · have hdne : ¬ rest.headD 'x' = ' ' := by
            intro hh
            apply hnd
            cases rest with
            | nil => exact absurd rfl hrne
            | cons d rest2 =>
              simp only [List.headD_cons] at hh
              subst hh
              exact List.infix_cons_iff.mpr (Or.inl ⟨rest2, rfl⟩)
          obtain ⟨hf2, hw3⟩ :=
            (ih (shStep s ' ') hall2 hnd2 hlast2).2 ⟨hm2, hcur2, houts2⟩ hrne hdne
          rw [shRun_cons]
          refine ⟨?_, hw3⟩
          rw [hf2, hf]
          simp
      · obtain ⟨hf, hw2⟩ := shStep_ordinary_W s c hW hcord hc
        obtain ⟨hf2, hw3⟩ := (ih (shStep s c) hall2 hnd2 hlast2).1 hw2
        rw [shRun_cons]
        refine ⟨?_, hw3⟩
        rw [hf2, hf]
        simp
    · rintro ⟨hm, hcur, houts⟩ _ hhead
      have hc : ¬ c = ' ' := by simpa [List.headD_cons] using hhead
      obtain ⟨m2, cur2, outs2⟩ := s
      simp only at hm hcur houts
      subst hm
      subst hcur
      obtain ⟨hf, hw2⟩ := shStep_resume outs2 c houts hcord hc
      obtain ⟨hf2, hw3⟩ := (ih _ hall2 hnd2 hlast2).1 hw2
      rw [shRun_cons]
      refine ⟨?_, hw3⟩
      rw [hf2, hf]
      simp

theorem shRun_pattern (p : Str) (s : ShState) (hgood : goodPattern p = true) :
    ∃ j, shFlat (shRun s p) = shFlat s ++ j ++ p := by
  simp only [goodPattern, decide_eq_true_eq] at hgood
  obtain ⟨hne, hall, hhead, hlastD, hndC⟩ := hgood
  have hnd : ¬ ([' ', ' '] <:+: p) := fun h => hndC ((containsSub_iff _ _).mpr h)
  cases hp : p with
  | nil => exact absurd hp hne
  | cons c rest =>
    subst hp
    rw [List.all_cons, Bool.and_eq_true] at hall
    obtain ⟨hcord, hall2⟩ := hall
    have hc : ¬ c = ' ' := by simpa [List.headD_cons] using hhead
    have hlast? : ¬ (c :: rest).getLast? = some ' ' := by
      intro h
      rw [getLast?_eq_some_getLastD c rest ' '] at h
      exact hlastD (Option.some.inj h)
    have hnd2 : ¬ ([' ', ' '] <:+: rest) := fun h => hnd (List.infix_cons_iff.mpr (Or.inr h))
    have hlast2 : ¬ rest.getLast? = some ' ' := by
      cases rest with
      | nil => simp
      | cons d rest2 =>
        rw [List.getLast?_cons_cons] at hlast?
        exact hlast?
    obtain ⟨⟨j, hj⟩, hw1⟩ := shStep_ordinary s c hcord hc
    obtain ⟨hf2, _⟩ := (shRun_mid rest (shStep s c) hall2 hnd2 hlast2).1 hw1
    refine ⟨j, ?_⟩
    rw [shRun_cons, hf2, hj]
    simp

theorem shlexSplit_flat (raw : Str) (toks : List Str)
    (hs : shlexSplit raw = some toks) : joinSp toks = shFlat (shRun shInit raw) := by
  simp only [shlexSplit] at hs
  rcases hstate : shRun shInit raw with ⟨m, cur, outs⟩
  rw [hstate] at hs
  cases m with
  | norm =>
    simp only [Option.some.injEq] at hs
    rw [← hs]
    rfl
  | quoteS => simp at hs
  | quoteD => simp at hs
  | escNorm => simp at hs
  | escQuoteD => simp at hs

theorem shlex_join_infix (raw p : Str) (hgood : goodPattern p = true)
    (hinf : p <:+: raw) (toks : List Str) (hs : shlexSplit raw = some toks) :
    p <:+: joinSp toks := by
  obtain ⟨u, v, hraw⟩ := hinf
  have h1 : shRun shInit raw = shRun (shRun (shRun shInit u) p) v := by
    rw [← hraw]
    simp [shRun, List.foldl_append]
  obtain ⟨j, hj⟩ := shRun_pattern p (shRun shInit u) hgood
  obtain ⟨d, hd⟩ := shRun_mono v (shRun (shRun shInit u) p)
  rw [shlexSplit_flat raw toks hs, h1, hd, hj]
  exact ⟨shFlat (shRun shInit u) ++ j, d, by simp [List.append_assoc]⟩

theorem validate_command_rejects (allowed : List Str) (cmd : Str)
    (h : (∀ toks ∈ (shlexSplit cmd).toList, ¬ toks.headD [] ∈ allowed) ∨
         ∃ p ∈ terminalDangerousPatterns, p <:+: cmd) :
    ∃ e, validate_command allowed cmd = .error e := by
  cases hsp : shlexSplit cmd with
  | none =>
    exact ⟨.valueError "No closing quotation", by simp [validate_command, hsp]⟩
  | some toks =>
    cases toks with
    | nil => exact ⟨.valueError "Empty command", by simp [validate_command, hsp]⟩
    | cons base rest =>
      by_cases hb : base ∈ allowed
      · rcases h with h1 | ⟨p, hpmem, hpinf⟩
        · exact absurd hb (by simpa using h1 (base :: rest) (by simp [hsp]))
        · have hgood : goodPattern p = true := by
            have hpat : ∀ q ∈ terminalDangerousPatterns, goodPattern q = true := by decide
            exact hpat p hpmem
          have hji : p <:+: joinSp (base :: rest) :=
            shlex_join_infix cmd p hgood hpinf _ hsp
          have hany : terminalDangerousPatterns.any
              (fun q => containsSub q (joinSp (base :: rest))) = true :=
            List.any_eq_true.mpr ⟨p, hpmem, (containsSub_iff _ _).mpr hji⟩
          exact ⟨.valueError "Dangerous command pattern detected",
            by simp [validate_command, hsp, hb, hany]⟩
      · exact ⟨.valueError "Command not allowed", by simp [validate_command, hsp, hb]⟩

/-- C3: for every command submitted to `terminal/execute`, if the base
token (the first `shlex` token) is not in the allowlist, or the full
command string contains a denylisted dangerous substring, the call fails
with zero processes spawned and zero side effects: the server state
(live-process table and command history alike) and the OS are unchanged. -/
theorem c3_rejection_no_side_effects (st : TerminalServer) (os : Os) (cmd : Str)
    (timeout now : Nat) (outcome : ExecOutcome)
    (h : (∀ toks ∈ (shlexSplit cmd).toList, ¬ toks.headD [] ∈ st.allowed_commands) ∨
         ∃ p ∈ terminalDangerousPatterns, p <:+: cmd) :
    (∃ e, (execute_command st os cmd timeout now outcome).res = .error e) ∧
    (execute_command st os cmd timeout now outcome).st = st ∧
    (execute_command st os cmd timeout now outcome).os = os ∧
    (execute_command st os cmd timeout now outcome).spawned = false := by
  by_cases hcmd : cmd = []
  · subst hcmd
    exact ⟨⟨.valueError "Command parameter is required", by simp [execute_command]⟩,
      by simp [execute_command], by simp [execute_command], by simp [execute_command]⟩
  · obtain ⟨e, he⟩ := validate_command_rejects st.allowed_commands cmd h
    exact ⟨⟨e, by simp [execute_command, hcmd, he]⟩,
      by simp [execute_command, hcmd, he],
      by simp [execute_command, hcmd, he],
      by simp [execute_command, hcmd, he]⟩

/-- C3 witness: `rm -rf /` (base token not allowlisted, and containing
the dangerous pattern `rm -rf`) is rejected with no spawn and no state
change. -/
theorem c3_rejection_no_side_effects_witness :
    ((∀ toks ∈ (shlexSplit "rm -rf /".toList).toList,
        ¬ toks.headD [] ∈ sleepSrv.allowed_commands) ∨
     ∃ p ∈ terminalDangerousPatterns, p <:+: "rm -rf /".toList) ∧
    ((∃ e, (execute_command sleepSrv ⟨7, []⟩ "rm -rf /".toList 30 42
        (.completes 0 [] [])).res = .error e) ∧
     (execute_command sleepSrv ⟨7, []⟩ "rm -rf /".toList 30 42
        (.completes 0 [] [])).st = sleepSrv ∧
     (execute_command sleepSrv ⟨7, []⟩ "rm -rf /".toList 30 42
        (.completes 0 [] [])).os = ⟨7, []⟩ ∧
     (execute_command sleepSrv ⟨7, []⟩ "rm -rf /".toList 30 42
        (.completes 0 [] [])).spawned = false) :=
  ⟨Or.inr (by decide),
   c3_rejection_no_side_effects sleepSrv ⟨7, []⟩ "rm -rf /".toList 30 42
     (.completes 0 [] []) (Or.inr (by decide))⟩
